import Mathlib

/-!
Verification of the lab process-tracking tool (src/lab_pg.py).

The file gives a shallow embedding of the tool's core logic — value
serialization, row resolution, the partial-update path, the read-through
cache, the derived-total computation and the status-catalog builder — and
proves theorems checking the specification's claims against it.

Modelling conventions:
  - Python strings are Lean String; str.strip is modelled on the six ASCII
    whitespace characters Python strips (wider Unicode whitespace is not
    exercised by this code base).
  - Python dates, times and datetimes are records of numeric fields;
    strftime / isoformat become explicit zero-padded formatters.
  - Python floats are modelled as exact rationals together with their
    default string form carried as data (binary rounding is irrelevant to
    the claims settled here); an infinite float is a distinguished value.
  - The Google-Sheets worksheet is a grid of strings addressed 1-based with
    row 1 the header; the two 30-second read caches of the app
    (fetch_columns, fetch_df) are modelled as two optional slots holding
    the derived values, without time-based expiry; st.cache_data.clear()
    empties both.
  - datetime.now() is passed in as an explicit argument.
-/

namespace LabPG

/-! ### Python string helpers -/

/-- The six ASCII characters Python's str.strip removes. -/
def pySpace (c : Char) : Bool :=
  c = ' ' || c = '\t' || c = '\n' || c = '\r' || c = '\x0b' || c = '\x0c'

/-- Python str.strip for the ASCII whitespace of this code base. -/
def pyStrip (s : String) : String :=
  String.mk (((s.data.dropWhile pySpace).reverse.dropWhile pySpace).reverse)

/-- Python str.lower restricted to ASCII letters (the only ones this code
compares after lowering). -/
def pyLower (s : String) : String :=
  String.mk (s.data.map Char.toLower)

/-- Decimal digits of a positive number, least significant first, by fuel
recursion so the kernel can evaluate it. -/
def natDigitsAux : Nat → Nat → List Nat
  | 0, _ => []
  | _ + 1, 0 => []
  | fuel + 1, n + 1 => ((n + 1) % 10) :: natDigitsAux fuel ((n + 1) / 10)

/-- Decimal rendering of a natural number, as Python's str of an int. -/
def natRepr (n : Nat) : String :=
  if n = 0 then "0" else String.mk ((natDigitsAux (n + 1) n).reverse.map Nat.digitChar)

/-- Decimal rendering of a Python int (possibly negative). -/
def intRepr (i : Int) : String :=
  if i < 0 then "-" ++ natRepr i.natAbs else natRepr i.natAbs

/-- Zero-padded two-digit rendering, as strftime %m, %d, %H, %M, %S. -/
def pad2 (n : Nat) : String :=
  if n < 10 then "0" ++ natRepr n else natRepr n

/-- Zero-padded four-digit rendering, as strftime %Y / isoformat years. -/
def pad4 (n : Nat) : String :=
  if n < 10 then "000" ++ natRepr n
  else if n < 100 then "00" ++ natRepr n
  else if n < 1000 then "0" ++ natRepr n
  else natRepr n

/-! ### Date and time values -/

/-- A Python datetime.datetime (fields the code formats). -/
structure PyDateTime where
  year : Nat
  month : Nat
  day : Nat
  hour : Nat
  minute : Nat
  second : Nat
deriving DecidableEq, Repr

/-- A Python datetime.date. -/
structure PyDate where
  year : Nat
  month : Nat
  day : Nat
deriving DecidableEq, Repr

/-- A Python datetime.time; the second field exists but %H:%M drops it. -/
structure PyTime where
  hour : Nat
  minute : Nat
  second : Nat
deriving DecidableEq, Repr

/-- strftime "%Y-%m-%d %H:%M:%S". -/
def fmtDateTime (dt : PyDateTime) : String :=
  pad4 dt.year ++ "-" ++ pad2 dt.month ++ "-" ++ pad2 dt.day ++ " "
    ++ pad2 dt.hour ++ ":" ++ pad2 dt.minute ++ ":" ++ pad2 dt.second

/-- date.isoformat, "YYYY-MM-DD". -/
def fmtDate (d : PyDate) : String :=
  pad4 d.year ++ "-" ++ pad2 d.month ++ "-" ++ pad2 d.day

/-- strftime "%H:%M" on a time-of-day (seconds dropped). -/
def fmtTimeHM (t : PyTime) : String :=
  pad2 t.hour ++ ":" ++ pad2 t.minute

/-! ### Value serialization: _prepare_sheet_value (src/lab_pg.py lines 432-443)

The Python function dispatches on the runtime type of its argument; the
embedding makes the type an inductive. isinstance(value, datetime) is
tested before isinstance(value, date) in the source, which the separate
constructors reproduce. A float carries its exact rational value and its
default string form (the str() of the Python float) as data. -/

inductive PyValue where
  | none
  | datetime (dt : PyDateTime)
  | date (d : PyDate)
  | time (t : PyTime)
  | float (q : ℚ) (srepr : String)
  | int (i : Int)
  | str (s : String)
  | other (srepr : String)
deriving DecidableEq, Repr

def _prepare_sheet_value : PyValue → String
  | .none => ""
  | .datetime dt => fmtDateTime dt
  | .date d => fmtDate d
  | .time t => fmtTimeHM t
  | .float q srepr => if q.den = 1 then intRepr q.num else srepr
  | .int i => intRepr i
  | .str s => s
  | .other srepr => srepr

/-! ### Python int() and float() on strings, for _sync_total_alineadores
(src/lab_pg.py lines 446-473)

int() accepts surrounding whitespace, an optional sign and decimal digits
(digit-group underscores are not modelled; the code never passes them).
float() additionally accepts a fractional part, an exponent and the
case-insensitive words inf, infinity and nan; a float is modelled as an
exact rational or one of the three special values. -/

def digitsToNat (l : List Char) : Nat :=
  l.foldl (fun a c => a * 10 + (c.toNat - 48)) 0

/-- Python int(s) on an already stripped string. -/
def pyIntOfString (s : String) : Option Int :=
  match s.data with
  | '-' :: rest =>
    if !rest.isEmpty && rest.all Char.isDigit then some (-(digitsToNat rest : Int))
    else Option.none
  | '+' :: rest =>
    if !rest.isEmpty && rest.all Char.isDigit then some (digitsToNat rest : Int)
    else Option.none
  | t =>
    if !t.isEmpty && t.all Char.isDigit then some (digitsToNat t : Int)
    else Option.none

/-- A Python float: an exact rational or one of the special values. -/
inductive PyFloat where
  | finite (q : ℚ)
  | inf
  | neginf
  | nan
deriving DecidableEq, Repr

/-- Leading sign of a float literal: (negative, remainder). -/
def parseSign : List Char → Bool × List Char
  | '-' :: r => (true, r)
  | '+' :: r => (false, r)
  | r => (false, r)

/-- Digit run to a number, when nonempty and all digits. -/
def parseDigits (l : List Char) : Option Nat :=
  if !l.isEmpty && l.all Char.isDigit then some (digitsToNat l) else Option.none

/-- Mantissa of a float literal: digits, digits.digits, digits. or .digits. -/
def parseMantissa (l : List Char) : Option ℚ :=
  match l.splitOn '.' with
  | [ip] => (parseDigits ip).map (fun n => (n : ℚ))
  | [ip, fp] =>
    if (ip.isEmpty && fp.isEmpty) || !ip.all Char.isDigit || !fp.all Char.isDigit then
      Option.none
    else some ((digitsToNat ip : ℚ) + (digitsToNat fp : ℚ) / (10 : ℚ) ^ fp.length)
  | _ => Option.none

/-- Signed exponent digits after the letter e. -/
def parseExponent (l : List Char) : Option Int :=
  match parseSign l with
  | (eneg, ed) => (parseDigits ed).map (fun n => if eneg then -(n : Int) else (n : Int))

/-- Unsigned numeric body of a float literal, possibly with an exponent. -/
def parseFloatBody (l : List Char) : Option ℚ :=
  match l.splitOn 'e' with
  | [m] => parseMantissa m
  | [m, ex] => do
    let q ← parseMantissa m
    let e ← parseExponent ex
    return q * (10 : ℚ) ^ e
  | _ => Option.none

/-- Python float(s): strip, lower, sign, then special word or numeric body. -/
def pyFloatOfString (s : String) : Option PyFloat :=
  let t := (pyLower (pyStrip s)).data
  match parseSign t with
  | (neg, body) =>
    if body = "inf".data || body = "infinity".data then
      some (if neg then .neginf else .inf)
    else if body = "nan".data then some .nan
    else (parseFloatBody body).map (fun q => .finite (if neg then -q else q))

/-- Python int(q) for a finite float: truncation toward zero. -/
def ratTruncToInt (q : ℚ) : Int :=
  if q < 0 then -(Rat.floor (-q)) else Rat.floor q

/-- The one uncaught exception of the update path: int() of an infinite
float raises OverflowError, which except (TypeError, ValueError) does not
catch. -/
inductive PyErr where
  | overflowError
deriving DecidableEq, Repr

/-- The raw inputs _to_int can receive. An input on which both int() and
float() raise TypeError or ValueError (a list, say) is collapsed into the
constructor other. -/
inductive PyIn where
  | none
  | int (i : Int)
  | str (s : String)
  | other
deriving DecidableEq, Repr

/-- The nested helper _to_int of _sync_total_alineadores (lines 454-467).
The first try/except catches TypeError and ValueError from int(raw); the
second catches the same from int(float(raw)). int() of an infinite float
raises OverflowError instead, which neither clause catches, so that case
escapes as an error. -/
def _to_int (raw : PyIn) : Except PyErr Int :=
  match raw with
  | .none => .ok 0
  | .int i => .ok i
  | .str s =>
    let t := pyStrip s
    if t = "" then .ok 0
    else
      match pyIntOfString t with
      | some i => .ok i
      | Option.none =>
        match pyFloatOfString t with
        | some (.finite q) => .ok (ratTruncToInt q)
        | some .inf => .error .overflowError
        | some .neginf => .error .overflowError
        | some .nan => .ok 0
        | Option.none => .ok 0
  | .other => .ok 0

/-- _sync_total_alineadores (lines 446-473). Session state supplies a
value when the explicit argument is None, defaulting to 0; the result is
the dict mapping Total_alineadores to the sum of the two converted
counts. The two _to_int calls are evaluated left to right, as in Python. -/
def _sync_total_alineadores (sessionState : String → Option PyIn)
    (total_key sup_key inf_key : String)
    (sup_value inf_value : Option PyIn) : Except PyErr (List (String × Int)) :=
  let sup_raw := match sup_value with
    | some v => v
    | Option.none => (sessionState sup_key).getD (.int 0)
  let inf_raw := match inf_value with
    | some v => v
    | Option.none => (sessionState inf_key).getD (.int 0)
  do
    let a ← _to_int sup_raw
    let b ← _to_int inf_raw
    return [("Total_alineadores", a + b)]

/-! ### _normalize_cell (src/lab_pg.py lines 239-246) -/

/-- _normalize_cell: None becomes the empty string; a string is stripped;
anything whose lowering is the word nan becomes the empty string. Non-string
non-None inputs (stringified without stripping in the source) are not
exercised by the claims and are omitted. -/
def _normalize_cell (value : Option String) : String :=
  match value with
  | Option.none => ""
  | some s =>
    let text := pyStrip s
    if pyLower text = "nan" then "" else text

/-! ### The worksheet grid and the cached reads

The backing store is a rectangular grid of strings addressed 1-based, row 1
the header (spec section 6). gspread pads short rows with empty cells, so
reading a missing cell gives the empty string and writing past the current
extent extends the grid. -/

/-- One worksheet: a list of rows, each a list of cell strings. -/
abbrev Grid := List (List String)

/-- Cell of a row at 0-based index, empty when absent. -/
def getPad (l : List String) (i : Nat) : String := l.getD i ""

/-- Write a cell at 0-based index, padding the row with empty cells. -/
def setPad (l : List String) (i : Nat) (v : String) : List String :=
  (l ++ List.replicate (i + 1 - l.length) "").set i v

/-- Row of a grid at 0-based index, empty when absent. -/
def getRow (g : Grid) (i : Nat) : List String := g.getD i []

/-- Replace a row at 0-based index, padding the grid with empty rows. -/
def setRow (g : Grid) (i : Nat) (row : List String) : Grid :=
  (g ++ List.replicate (i + 1 - g.length) []).set i row

/-- Read a cell at 1-based (row, column), as the Sheets API addresses it. -/
def readCell (g : Grid) (r c : Nat) : String := getPad (getRow g (r - 1)) (c - 1)

/-- Write a cell at 1-based (row, column). -/
def setCell (g : Grid) (r c : Nat) (v : String) : Grid :=
  setRow g (r - 1) (setPad (getRow g (r - 1)) (c - 1) v)

/-- One pending Cell of gspread: 1-based row, 1-based column, value. -/
abbrev CellWrite := Nat × Nat × String

/-- ws.update_cells: apply the pending writes in list order. -/
def applyCells (g : Grid) (us : List CellWrite) : Grid :=
  us.foldl (fun g u => setCell g u.1 u.2.1 u.2.2) g

/-- The header constant DEFAULT_COLUMNS (src/lab_pg.py lines 24-45). -/
def DEFAULT_COLUMNS : List String :=
  ["No_orden", "Nombre_paciente", "Nombre_doctor", "Status", "Status_NEMO",
   "Tipo_alineador", "Dias_entrega", "Comentarios", "Notas", "Responsable_SUD",
   "Fecha_inicio_SUD", "Hora_inicio_SUD", "Plantilla_superior",
   "Plantilla_inferior", "IPR", "No_alineadores_superior",
   "No_alineadores_inferior", "Total_alineadores", "Fecha_solicitud_envio",
   "Ultima_Modificacion"]

/-- The in-memory DataFrame fetch_df builds: the header row names the
columns, the remaining rows are the data. Column lookup is by name, so the
reordering fetch_df performs and the empty columns it adds are captured by
dfRowGet defaulting missing names to the empty string. -/
structure Df where
  header : List String
  rows : List (List String)
deriving DecidableEq, Repr

/-- Value of a named field in one data row: position of the first header
occurrence of the name, empty when the header lacks the name (fetch_df adds
every required column as an all-empty column). -/
def dfRowGet (header row : List String) (name : String) : String :=
  match header.findIdx? (fun h => h == name) with
  | some j => getPad row j
  | Option.none => ""

/-- App-side state: the remote grid plus the two st.cache_data slots
(fetch_df and fetch_columns), modelled without their 30-second expiry. -/
structure State where
  grid : Grid
  dfCache : Option Df
  colsCache : Option (List String)
deriving DecidableEq, Repr

/-- The initialization branch of fetch_columns (lines 326-329): an absent
or empty header row is rewritten with DEFAULT_COLUMNS — a write to the
backing store performed by the read path. -/
def initHeaders (st : State) : List String × State :=
  (DEFAULT_COLUMNS,
   { st with grid := setRow st.grid 0 DEFAULT_COLUMNS,
             colsCache := some DEFAULT_COLUMNS })

/-- fetch_columns (lines 322-329): cached read of the header row,
initializing the sheet when the header is missing. -/
def fetch_columns (st : State) : List String × State :=
  match st.colsCache with
  | some cs => (cs, st)
  | Option.none =>
    match st.grid.head? with
    | some h =>
      if h.isEmpty then initHeaders st
      else (h, { st with colsCache := some h })
    | Option.none => initHeaders st

/-- fetch_df (lines 331-349): cached read of the whole grid as a DataFrame.
On a cache miss it first runs fetch_columns (which may initialize the
header), then takes the grid's first row as the column names and the rest
as data; an empty grid gives a DataFrame with the fetched columns and no
rows. The required-column padding and column reordering of the source
change no lookup by name and are folded into dfRowGet. -/
def fetch_df (st : State) : Df × State :=
  match st.dfCache with
  | some d => (d, st)
  | Option.none =>
    match (fetch_columns st).2.grid with
    | [] =>
      let d : Df := ⟨(fetch_columns st).1, []⟩
      (d, { (fetch_columns st).2 with dfCache := some d })
    | hd :: tl =>
      let d : Df := ⟨hd, tl⟩
      (d, { (fetch_columns st).2 with dfCache := some d })

/-! ### Row resolution inside update_process (lines 358-396) -/

/-- Result of int(row_idx): ofInt when the conversion succeeds, bad when it
raises TypeError or ValueError (line 379-381). -/
inductive IdxVal where
  | ofInt (i : Int)
  | bad
deriving DecidableEq, Repr

/-- The identifier after the tuple/dict dispatch of lines 366-376: an
optional order-number string and an optional row position. A plain
identifier is an Identifier with rowIdx none; str(None) on a missing order
number is reproduced by pyStrOfOpt. -/
structure Identifier where
  noOrden : Option String
  rowIdx : Option IdxVal
deriving DecidableEq, Repr

/-- str(current_no_orden) of line 391: Python renders None as "None". -/
def pyStrOfOpt : Option String → String
  | some s => s
  | Option.none => "None"

/-- The predicate of lines 387-392 on one row: its order-number field is
non-empty after stripping (the procesos filter) and equals the target
exactly (the matching filter, on the unstripped value). -/
def rowMatches (header : List String) (target : String) (row : List String) : Bool :=
  (pyStrip (dfRowGet header row "No_orden") != "") && (dfRowGet header row "No_orden" == target)

/-- Row resolution of update_process (lines 378-396): an explicit position
must convert to an int lying in the DataFrame's 0-based index range;
otherwise the first row in table order passing rowMatches is taken. -/
def resolveRow (df : Df) (ident : Identifier) : Option Nat :=
  match ident.rowIdx with
  | some (.ofInt i) =>
    if 0 ≤ i ∧ i < (df.rows.length : Int) then some i.toNat else Option.none
  | some .bad => Option.none
  | Option.none =>
    df.rows.findIdx? (rowMatches df.header (pyStrOfOpt ident.noOrden))

/-! ### update_process (lines 358-429) -/

/-- The dict comprehension of line 401: 1-based position of a column name,
the last occurrence winning as in a Python dict built left to right. -/
def posOfAux : List String → String → Nat → Option Nat
  | [], _, _ => Option.none
  | c :: rest, name, i =>
    match posOfAux rest name (i + 1) with
    | some p => some p
    | Option.none => if c = name then some (i + 1) else Option.none

/-- column_positions lookup: 1-based position of a header name. -/
def posOf (columns : List String) (name : String) : Option Nat :=
  posOfAux columns name 0

/-- The loop of lines 403-413: one pending cell write per requested field
whose name is a known column, at the resolved row, serialized. -/
def buildUpdates (columns : List String) (rowNumber : Nat)
    (data : List (String × PyValue)) : List CellWrite :=
  data.filterMap (fun cv =>
    match posOf columns cv.1 with
    | some p => some (rowNumber, p, _prepare_sheet_value cv.2)
    | Option.none => Option.none)

/-- Lines 403-422: the field writes followed by the Ultima_Modificacion
stamp whenever that column exists in the header. -/
def fullUpdates (columns : List String) (rowNumber : Nat)
    (data : List (String × PyValue)) (now : PyDateTime) : List CellWrite :=
  match posOf columns "Ultima_Modificacion" with
  | some p => buildUpdates columns rowNumber data ++ [(rowNumber, p, fmtDateTime now)]
  | Option.none => buildUpdates columns rowNumber data

/-- update_process: read the table through the cache, resolve the row,
serialize the known fields, append the Ultima_Modificacion stamp when that
column exists, and apply the writes; False whenever the table is empty, the
row does not resolve, or no cell write was produced. now stands for
datetime.now() of line 420. -/
def update_process (st : State) (ident : Identifier) (data : List (String × PyValue))
    (now : PyDateTime) : State × Bool :=
  match fetch_df st with
  | (df, st1) =>
    if df.rows.isEmpty then (st1, false)
    else
      match resolveRow df ident with
      | Option.none => (st1, false)
      | some rowIdx =>
        let rowNumber := rowIdx + 2
        match fetch_columns st1 with
        | (columns, st2) =>
          let updates := fullUpdates columns rowNumber data now
          if updates.isEmpty then (st2, false)
          else ({ st2 with grid := applyCells st2.grid updates }, true)

/-! ### persist_field_change (lines 476-530) -/

/-- How a persist_field_change call ends: the transform raised, the
extra_resolver raised, every field was filtered out (the warning path), the
update succeeded (cache cleared), or update_process returned False. -/
inductive PersistOutcome where
  | errorTransform
  | errorExtra
  | warnedUnknown
  | updated
  | errorUpdate
deriving DecidableEq, Repr

/-- Python dict update of one key: override in place or append. -/
def dictInsert (d : List (String × PyValue)) (kv : String × PyValue) :
    List (String × PyValue) :=
  if d.any (fun p => p.1 == kv.1) then
    d.map (fun p => if p.1 == kv.1 then (p.1, kv.2) else p)
  else d ++ [kv]

/-- Python dict.update over a list of pairs with distinct keys. -/
def dictUpdate (base extras : List (String × PyValue)) : List (String × PyValue) :=
  extras.foldl dictInsert base

/-- The data dict of lines 499-515: the edited field mapped to its
serialized value, then updated with the serialized derived fields. -/
def persistData (field_name : String) (value : PyValue)
    (extra : Option (List (String × PyValue))) : List (String × PyValue) :=
  dictUpdate [(field_name, PyValue.str (_prepare_sheet_value value))]
    (match extra with
     | some ex => ex.map (fun p => (p.1, PyValue.str (_prepare_sheet_value p.2)))
     | Option.none => [])

/-- Lines 517-530 of persist_field_change, after the transform and the
extra_resolver both succeeded: filter the data against the live columns,
warn when nothing remains, otherwise run update_process and clear both
caches (st.cache_data.clear()) exactly when it returns True. -/
def persistApply (st : State) (ident : Identifier) (field_name : String)
    (value : PyValue) (extraData : Option (List (String × PyValue)))
    (now : PyDateTime) : State × PersistOutcome :=
  let data := persistData field_name value extraData
  let filtered := data.filter (fun p => ((fetch_columns st).1).contains p.1)
  if filtered.isEmpty then ((fetch_columns st).2, .warnedUnknown)
  else if (update_process (fetch_columns st).2 ident filtered now).2 = true then
    ({ (update_process (fetch_columns st).2 ident filtered now).1 with
        dfCache := Option.none, colsCache := Option.none }, .updated)
  else ((update_process (fetch_columns st).2 ident filtered now).1, .errorUpdate)

/-- persist_field_change: the transform and extra_resolver are arbitrary
caller callbacks, so their outcomes (a value or a raised exception) enter
as data. A failed transform or extra_resolver reports without touching
anything; otherwise persistApply (lines 517-530) runs. The _focus_sud_tab
call touches only UI session state and is omitted. -/
def persist_field_change (st : State) (ident : Identifier) (field_name : String)
    (transformed : Except Unit PyValue)
    (extra : Option (Except Unit (List (String × PyValue))))
    (now : PyDateTime) : State × PersistOutcome :=
  match transformed with
  | .error _ => (st, .errorTransform)
  | .ok value =>
    match extra with
    | some (.error _) => (st, .errorExtra)
    | some (.ok ex) => persistApply st ident field_name value (some ex) now
    | Option.none => persistApply st ident field_name value Option.none now

/-- The value the last pending write targeting a cell carries, if any;
update_cells applies writes in order, so later entries win. -/
def lastWrite : List CellWrite → Nat → Nat → Option String
  | [], _, _ => Option.none
  | u :: us, r, c =>
    match lastWrite us r c with
    | some v => some v
    | Option.none => if u.1 = r ∧ u.2.1 = c then some u.2.2 else Option.none

/-! ### Helper lemmas about the cached reads -/

/-- The sheet has no usable header row and no cached column list, so the
next fetch_columns will initialize it. -/
def headerMissing (st : State) : Prop :=
  st.colsCache = Option.none ∧ (st.grid.head?.getD []).isEmpty = true

/-- A usable header is available, from the cache or from the grid. -/
def headerReady (st : State) : Prop :=
  st.colsCache ≠ Option.none ∨ (st.grid.head?.getD []).isEmpty = false

/-- The state after the two reads update_process performs. -/
def readPhase (st : State) : State := (fetch_columns (fetch_df st).2).2

/-- The concrete now used by closed evaluation theorems. -/
def dtEx : PyDateTime := ⟨2026, 1, 2, 3, 4, 5⟩

/-- The state used by the concrete witnesses below. -/
def st0ex : State :=
  ⟨[["No_orden", "Status", "Ultima_Modificacion"], ["A", "s1", "t0"], ["B", "s2", "t0"]],
   Option.none, Option.none⟩

/-- The second concrete now for the idempotence witness. -/
def dtEx2 : PyDateTime := ⟨2026, 1, 2, 3, 9, 9⟩

/-! ### The Option Catalog Builder (claims C7 and C9)

_slugify_label (lines 107-113), _generate_color (lines 116-120) and
_build_options (lines 123-136). Unicode NFKD decomposition followed by
removal of combining marks is modelled for the accented Latin letters this
code base's labels contain (other characters decompose to themselves);
colorsys.hls_to_rgb runs on exact rationals, the saturation 0.65 and
lightness 0.55 keyword defaults included; sha1 is implemented on bytes. -/

/-- NFKD decomposition with combining characters removed, for the letters
appearing in the status labels; every other character is left unchanged. -/
def nfkdBase : Char → Char
  | 'á' => 'a' | 'é' => 'e' | 'í' => 'i' | 'ó' => 'o' | 'ú' => 'u' | 'ü' => 'u' | 'ñ' => 'n'
  | 'Á' => 'A' | 'É' => 'E' | 'Í' => 'I' | 'Ó' => 'O' | 'Ú' => 'U' | 'Ü' => 'U' | 'Ñ' => 'N'
  | c => c

/-- A character the regex [^a-z0-9]+ leaves alone. -/
def isSlugChar (c : Char) : Bool :=
  ('a' ≤ c && c ≤ 'z') || ('0' ≤ c && c ≤ '9')

/-- re.sub of [^a-z0-9]+ with a single underscore: the flag records being
inside a run already replaced. -/
def collapseAux : List Char → Bool → List Char
  | [], _ => []
  | c :: rest, inRun =>
    if isSlugChar c then c :: collapseAux rest false
    else if inRun then collapseAux rest true
    else '_' :: collapseAux rest true

def _slugify_label (label : String) : String :=
  let ascii := (label.data.map nfkdBase).map Char.toLower
  let collapsed := collapseAux ascii false
  let stripped :=
    ((collapsed.dropWhile (fun c => c == '_')).reverse.dropWhile (fun c => c == '_')).reverse
  if stripped.isEmpty then "estado" else String.mk stripped

/-! SHA-1 over byte lists, words as naturals reduced mod 2 to the 32. -/

def w32 (x : Nat) : Nat := x % 4294967296

def rotl32 (n x : Nat) : Nat := w32 ((x <<< n) ||| (x >>> (32 - n)))

def shaF (t b c d : Nat) : Nat :=
  if t < 20 then (b &&& c) ||| ((4294967295 ^^^ b) &&& d)
  else if t < 40 then (b ^^^ c) ^^^ d
  else if t < 60 then ((b &&& c) ||| (b &&& d)) ||| (c &&& d)
  else (b ^^^ c) ^^^ d

def shaK (t : Nat) : Nat :=
  if t < 20 then 0x5A827999 else if t < 40 then 0x6ED9EBA1
  else if t < 60 then 0x8F1BBCDC else 0xCA62C1D6

/-- Big-endian bytes of a number, fixed width. -/
def beBytes : Nat → Nat → List Nat
  | 0, _ => []
  | k + 1, v => beBytes k (v / 256) ++ [v % 256]

def sha1Pad (msg : List Nat) : List Nat :=
  let zeros := (64 - ((msg.length + 9) % 64)) % 64
  msg ++ [128] ++ List.replicate zeros 0 ++ beBytes 8 (8 * msg.length)

def bytesToWords : List Nat → List Nat
  | b0 :: b1 :: b2 :: b3 :: rest =>
    (((b0 * 256 + b1) * 256 + b2) * 256 + b3) :: bytesToWords rest
  | _ => []

def chunks16 : List Nat → List (List Nat)
  | w0 :: w1 :: w2 :: w3 :: w4 :: w5 :: w6 :: w7 ::
      w8 :: w9 :: w10 :: w11 :: w12 :: w13 :: w14 :: w15 :: rest =>
    [w0, w1, w2, w3, w4, w5, w6, w7, w8, w9, w10, w11, w12, w13, w14, w15] :: chunks16 rest
  | _ => []

def sha1ExtendStep (w : Array Nat) (_i : Nat) : Array Nat :=
  let n := w.size
  w.push (rotl32 1 (((w.getD (n - 3) 0 ^^^ w.getD (n - 8) 0) ^^^ w.getD (n - 14) 0)
    ^^^ w.getD (n - 16) 0))

def sha1Schedule (chunk : List Nat) : Array Nat :=
  (List.range 64).foldl sha1ExtendStep chunk.toArray

/-- The five working words. -/
abbrev Sha5 := Nat × Nat × Nat × Nat × Nat

def sha1Round (w : Array Nat) (st : Sha5) (t : Nat) : Sha5 :=
  match st with
  | (a, b, c, d, e) =>
    (w32 (rotl32 5 a + shaF t b c d + e + shaK t + w.getD t 0), a, rotl32 30 b, c, d)

def sha1Chunk (h : Sha5) (chunk : List Nat) : Sha5 :=
  match (List.range 80).foldl (sha1Round (sha1Schedule chunk)) h, h with
  | (a, b, c, d, e), (h0, h1, h2, h3, h4) =>
    (w32 (h0 + a), w32 (h1 + b), w32 (h2 + c), w32 (h3 + d), w32 (h4 + e))

def sha1Words (msg : List Nat) : Sha5 :=
  (chunks16 (bytesToWords (sha1Pad msg))).foldl sha1Chunk
    (0x67452301, 0xEFCDAB89, 0x98BADCFE, 0x10325476, 0xC3D2E1F0)

/-- Lowercase hex of one 32-bit word, eight digits. -/
def wordHex (x : Nat) : String :=
  String.mk ((List.range 8).reverse.map (fun i => Nat.digitChar ((x >>> (4 * i)) % 16)))

/-- hashlib.sha1(...).hexdigest() on a byte list. -/
def sha1Hex (msg : List Nat) : String :=
  match sha1Words msg with
  | (a, b, c, d, e) => wordHex a ++ wordHex b ++ wordHex c ++ wordHex d ++ wordHex e

def hexVal (c : Char) : Nat := if c.isDigit then c.toNat - 48 else c.toNat - 87

/-- int(s, 16) on a lowercase hex string. -/
def hexToNat (s : String) : Nat := s.data.foldl (fun a c => a * 16 + hexVal c) 0

/-- colorsys._v on exact rationals; hue normalized with the fractional
part, as the float modulo by 1.0 does. -/
def hls_v (m1 m2 hue : ℚ) : ℚ :=
  let hue := hue - ((⌊hue⌋ : ℤ) : ℚ)
  if hue < 1 / 6 then m1 + (m2 - m1) * hue * 6
  else if hue < 1 / 2 then m2
  else if hue < 2 / 3 then m1 + (m2 - m1) * (2 / 3 - hue) * 6
  else m1

/-- colorsys.hls_to_rgb on exact rationals. -/
def hls_to_rgb (h l s : ℚ) : ℚ × ℚ × ℚ :=
  if s = 0 then (l, l, l)
  else
    let m2 := if l ≤ 1 / 2 then l * (1 + s) else l + s - l * s
    let m1 := 2 * l - m2
    (hls_v m1 m2 (h + 1 / 3), hls_v m1 m2 h, hls_v m1 m2 (h - 1 / 3))

def hexCharUpper (n : Nat) : Char :=
  if n < 10 then Nat.digitChar n else Char.ofNat (55 + n)

/-- The "{:02X}" format of one byte. -/
def byteHexUpper (x : Nat) : String :=
  String.mk [hexCharUpper (x / 16 % 16), hexCharUpper (x % 16)]

/-- _generate_color (lines 116-120): sha1 of the utf-8 of the value, the
first six hex digits over 0xFFFFFF as hue, hls_to_rgb at the keyword
defaults lightness 0.55 and saturation 0.65, each channel truncated to an
int after scaling by 255, formatted as an uppercase hex triplet. -/
def _generate_color (value : String) : String :=
  let digest := sha1Hex (value.toUTF8.toList.map (fun b => b.toNat))
  let hue : ℚ := (hexToNat (String.mk (digest.data.take 6)) : ℚ) / 16777215
  let rgb := hls_to_rgb hue (11 / 20) (13 / 20)
  "#" ++ byteHexUpper (ratTruncToInt (rgb.1 * 255)).toNat
    ++ byteHexUpper (ratTruncToInt (rgb.2.1 * 255)).toNat
    ++ byteHexUpper (ratTruncToInt (rgb.2.2 * 255)).toNat

/-- One catalog entry of _build_options. -/
structure StatusOption where
  value : String
  label : String
  color : String
deriving DecidableEq, Repr

/-- The collision loop of lines 129-132: starting from suffix 2, the first
base_suffix not yet seen; the fuel covers one candidate more than seen
holds, enough by the pigeonhole argument below. -/
def freshFrom (seen : List String) (base : String) : Nat → Nat → String
  | 0, suffix => base ++ "_" ++ natRepr suffix
  | fuel + 1, suffix =>
    if base ++ "_" ++ natRepr suffix ∈ seen then freshFrom seen base fuel (suffix + 1)
    else base ++ "_" ++ natRepr suffix

/-- Lines 128-132: the base value itself when unseen, else the suffix
loop. -/
def freshValue (seen : List String) (base : String) : String :=
  if base ∈ seen then freshFrom seen base (seen.length + 1) 2 else base

/-- The loop body of _build_options with seen_values as a list. -/
def buildOptionsGo (pfx : String) : List String → List String → List StatusOption
  | [], _ => []
  | label :: rest, seen =>
    let base_value := _slugify_label label
    let value := freshValue seen base_value
    let color := _generate_color (pfx ++ "_" ++ value)
    ⟨value, label, color⟩ :: buildOptionsGo pfx rest (value :: seen)

def _build_options (labels : List String) (pfx : String) : List StatusOption :=
  buildOptionsGo pfx labels []

/-! ### Theorems -/

/-! ### Theorems for claims C3 and C5 -/

/-- C3. _prepare_sheet_value maps None to the empty string, a datetime to
YYYY-MM-DD HH:MM:SS, a date to YYYY-MM-DD, a time-of-day to HH:MM, a float
with no fractional part (an integer rational) to the decimal form of that
integer, and every other value (a non-integral float, an int, a string, any
other object) to its default string form; in particular the date 2024-03-07
serializes to "2024-03-07" and the time 9:05 to "09:05". -/
theorem prepare_sheet_value_policy :
    _prepare_sheet_value PyValue.none = ""
    ∧ (∀ y mo d h mi s, _prepare_sheet_value (.datetime ⟨y, mo, d, h, mi, s⟩)
        = pad4 y ++ "-" ++ pad2 mo ++ "-" ++ pad2 d ++ " "
          ++ pad2 h ++ ":" ++ pad2 mi ++ ":" ++ pad2 s)
    ∧ (∀ y mo d, _prepare_sheet_value (.date ⟨y, mo, d⟩)
        = pad4 y ++ "-" ++ pad2 mo ++ "-" ++ pad2 d)
    ∧ (∀ h mi s, _prepare_sheet_value (.time ⟨h, mi, s⟩) = pad2 h ++ ":" ++ pad2 mi)
    ∧ (∀ (i : Int) (srepr : String),
        _prepare_sheet_value (.float (i : ℚ) srepr) = intRepr i)
    ∧ (∀ (q : ℚ) (srepr : String), q.den ≠ 1 →
        _prepare_sheet_value (.float q srepr) = srepr)
    ∧ (∀ s, _prepare_sheet_value (.str s) = s)
    ∧ (∀ srepr, _prepare_sheet_value (.other srepr) = srepr)
    ∧ _prepare_sheet_value (.date ⟨2024, 3, 7⟩) = "2024-03-07"
    ∧ _prepare_sheet_value (.time ⟨9, 5, 0⟩) = "09:05" := by
  refine ⟨rfl, fun _ _ _ _ _ _ => rfl, fun _ _ _ => rfl, fun _ _ _ => rfl,
    fun i srepr => ?_, fun q srepr h => ?_, fun _ => rfl, fun _ => rfl, by decide, by decide⟩
  · show (if ((i : ℚ)).den = 1 then intRepr ((i : ℚ)).num else srepr) = intRepr i
    rw [Rat.den_intCast, Rat.num_intCast, if_pos rfl]
  · show (if q.den = 1 then intRepr q.num else srepr) = srepr
    rw [if_neg h]

/-- C5 has one conjunct with a hypothesis-free closed statement evaluating
the code, so a separate witness is not needed; this records the two
documented examples and the uncaught-overflow divergence: superior 5 and
inferior 7 give total 12; unparseable "abc" counts as 0 so with inferior 3
the total is 3; but the string "inf" makes the code raise OverflowError
(int of an infinite float), contradicting the never-raises claim. -/
theorem sync_total_alineadores_eval :
    _sync_total_alineadores (fun _ => Option.none) "t" "s" "i"
        (some (.int 5)) (some (.int 7)) = .ok [("Total_alineadores", 12)]
    ∧ _sync_total_alineadores (fun _ => Option.none) "t" "s" "i"
        (some (.str "abc")) (some (.int 3)) = .ok [("Total_alineadores", 3)]
    ∧ _sync_total_alineadores (fun _ => Option.none) "t" "s" "i"
        (some (.str "inf")) (some (.int 3)) = .error .overflowError := by
  exact ⟨rfl, rfl, rfl⟩

/-! ### Helper lemmas about padded cell access -/

theorem getD_padSet_self {α : Type} (l : List α) (i : Nat) (v d : α) :
    ((l ++ List.replicate (i + 1 - l.length) d).set i v).getD i d = v := by
  have hlen : i < (l ++ List.replicate (i + 1 - l.length) d).length := by
    rw [List.length_append, List.length_replicate]; omega
  rw [List.getD_eq_getElem?_getD, List.getElem?_set_self hlen, Option.getD_some]

theorem getD_padSet_ne {α : Type} (l : List α) (i j : Nat) (v d : α) (h : j ≠ i) :
    ((l ++ List.replicate (i + 1 - l.length) d).set i v).getD j d = l.getD j d := by
  rw [List.getD_eq_getElem?_getD, List.getD_eq_getElem?_getD,
    List.getElem?_set_ne (Ne.symm h), List.getElem?_append]
  by_cases hj : j < l.length
  · rw [if_pos hj]
  · rw [if_neg hj, List.getElem?_replicate]
    have : l[j]? = Option.none := List.getElem?_eq_none (by omega)
    rw [this]
    split <;> rfl

theorem getPad_setPad_self (l : List String) (i : Nat) (v : String) :
    getPad (setPad l i v) i = v := getD_padSet_self l i v ""

theorem getPad_setPad_ne (l : List String) (i j : Nat) (v : String) (h : j ≠ i) :
    getPad (setPad l i v) j = getPad l j := getD_padSet_ne l i j v "" h

theorem getRow_setRow_self (g : Grid) (i : Nat) (row : List String) :
    getRow (setRow g i row) i = row := getD_padSet_self g i row []

theorem getRow_setRow_ne (g : Grid) (i j : Nat) (row : List String) (h : j ≠ i) :
    getRow (setRow g i row) j = getRow g j := getD_padSet_ne g i j row [] h

theorem readCell_setCell_self (g : Grid) (r c : Nat) (v : String) :
    readCell (setCell g r c v) r c = v := by
  unfold readCell setCell
  rw [getRow_setRow_self, getPad_setPad_self]

theorem readCell_setCell_ne (g : Grid) (r c : Nat) (v : String) (r' c' : Nat)
    (h : r' - 1 ≠ r - 1 ∨ c' - 1 ≠ c - 1) :
    readCell (setCell g r c v) r' c' = readCell g r' c' := by
  unfold readCell setCell
  rcases eq_or_ne (r' - 1) (r - 1) with hrow | hrow
  · rcases h with h | h
    · exact absurd hrow h
    · rw [hrow, getRow_setRow_self, getPad_setPad_ne _ _ _ _ h]
  · rw [getRow_setRow_ne _ _ _ _ hrow]

theorem readCell_applyCells (us : List CellWrite) (g : Grid) (r c : Nat)
    (hr : 1 ≤ r) (hc : 1 ≤ c) (hus : ∀ u ∈ us, 1 ≤ u.1 ∧ 1 ≤ u.2.1) :
    readCell (applyCells g us) r c = (lastWrite us r c).getD (readCell g r c) := by
  induction us generalizing g with
  | nil => rfl
  | cons u us ih =>
    have hu := hus u (List.mem_cons_self u us)
    have step : applyCells g (u :: us) = applyCells (setCell g u.1 u.2.1 u.2.2) us := rfl
    rw [step, ih (setCell g u.1 u.2.1 u.2.2) (fun w hw => hus w (List.mem_cons_of_mem u hw))]
    cases hl : lastWrite us r c with
    | some v => simp only [lastWrite, hl, Option.getD_some]
    | none =>
      simp only [lastWrite, hl]
      by_cases hhit : u.1 = r ∧ u.2.1 = c
      · rw [if_pos hhit]
        rcases hhit with ⟨h1, h2⟩
        subst h1; subst h2
        rw [readCell_setCell_self, Option.getD_some, Option.getD_none]
      · rw [if_neg hhit]
        have hne : r - 1 ≠ u.1 - 1 ∨ c - 1 ≠ u.2.1 - 1 := by
          rcases Decidable.not_and_iff_or_not.mp hhit with h | h
          · left; omega
          · right; omega
        rw [readCell_setCell_ne _ _ _ _ _ _ hne]

theorem lastWrite_append (us vs : List CellWrite) (r c : Nat) :
    lastWrite (us ++ vs) r c =
      match lastWrite vs r c with
      | some v => some v
      | Option.none => lastWrite us r c := by
  induction us with
  | nil =>
    rw [List.nil_append]
    cases h : lastWrite vs r c with
    | some v => simp [h]
    | none => simp [h, lastWrite]
  | cons u us ih =>
    show (match lastWrite (us ++ vs) r c with
      | some v => some v
      | Option.none => if u.1 = r ∧ u.2.1 = c then some u.2.2 else Option.none) = _
    rw [ih]
    cases lastWrite vs r c with
    | some v => rfl
    | none => rfl

theorem lastWrite_none_of_row_ne (us : List CellWrite) (r c : Nat)
    (h : ∀ u ∈ us, u.1 ≠ r) : lastWrite us r c = Option.none := by
  induction us with
  | nil => rfl
  | cons u us ih =>
    show (match lastWrite us r c with
      | some v => some v
      | Option.none => if u.1 = r ∧ u.2.1 = c then some u.2.2 else Option.none) = _
    rw [ih (fun w hw => h w (List.mem_cons_of_mem u hw))]
    rw [if_neg (fun hc2 => h u (List.mem_cons_self u us) hc2.1)]

/-! ### Helper lemmas about column positions -/

theorem posOfAux_some_spec (cols : List String) (name : String) :
    ∀ (i p : Nat), posOfAux cols name i = some p →
      ∃ j, j < cols.length ∧ p = i + j + 1 ∧ cols.getD j "" = name := by
  induction cols with
  | nil => intro i p h; exact absurd h (by simp [posOfAux])
  | cons c rest ih =>
    intro i p h
    unfold posOfAux at h
    cases hr : posOfAux rest name (i + 1) with
    | some q =>
      rw [hr] at h
      obtain ⟨j, hj, hq, hname⟩ := ih (i + 1) q hr
      cases h
      exact ⟨j + 1, by simpa using hj, by omega, by simpa using hname⟩
    | none =>
      rw [hr] at h
      by_cases hc : c = name
      · rw [if_pos hc] at h
        cases h
        exact ⟨0, by simp, by omega, by simpa using hc⟩
      · rw [if_neg hc] at h
        exact absurd h (by simp)

theorem posOf_some_spec (cols : List String) (name : String) (p : Nat)
    (h : posOf cols name = some p) :
    ∃ j, j < cols.length ∧ p = j + 1 ∧ cols.getD j "" = name := by
  obtain ⟨j, hj, hp, hn⟩ := posOfAux_some_spec cols name 0 p h
  exact ⟨j, hj, by omega, hn⟩

theorem posOf_pos (cols : List String) (name : String) (p : Nat)
    (h : posOf cols name = some p) : 1 ≤ p := by
  obtain ⟨j, _, hp, _⟩ := posOf_some_spec cols name p h
  omega

theorem posOf_inj_name (cols : List String) (a b : String) (p : Nat)
    (ha : posOf cols a = some p) (hb : posOf cols b = some p) : a = b := by
  obtain ⟨j₁, _, hp₁, hn₁⟩ := posOf_some_spec cols a p ha
  obtain ⟨j₂, _, hp₂, hn₂⟩ := posOf_some_spec cols b p hb
  have : j₁ = j₂ := by omega
  subst this
  rw [← hn₁, ← hn₂]

theorem posOfAux_isSome_iff (cols : List String) (name : String) :
    ∀ i, (posOfAux cols name i).isSome ↔ name ∈ cols := by
  induction cols with
  | nil => intro i; simp [posOfAux]
  | cons c rest ih =>
    intro i
    unfold posOfAux
    cases hr : posOfAux rest name (i + 1) with
    | some q =>
      simp only [Option.isSome_some, true_iff]
      exact List.mem_cons_of_mem c ((ih (i + 1)).mp (by rw [hr]; rfl))
    | none =>
      by_cases hc : c = name
      · simp [hc]
      · rw [if_neg hc]
        simp only [Option.isSome_none, Bool.false_eq_true, false_iff]
        intro hmem
        rcases List.mem_cons.mp hmem with h | h
        · exact hc h.symm
        · have := (ih (i + 1)).mpr h
          rw [hr] at this
          exact absurd this (by simp)

theorem posOf_isSome_iff (cols : List String) (name : String) :
    (posOf cols name).isSome ↔ name ∈ cols := posOfAux_isSome_iff cols name 0

theorem posOf_eq_none_iff (cols : List String) (name : String) :
    posOf cols name = Option.none ↔ name ∉ cols := by
  rw [← posOf_isSome_iff, Option.not_isSome_iff_eq_none]

theorem not_missing_of_ready (st : State) (h : headerReady st) : ¬ headerMissing st := by
  rintro ⟨h1, h2⟩
  rcases h with h | h
  · exact h h1
  · rw [h2] at h; simp at h

theorem fetch_columns_cacheHit (st : State) (cs : List String)
    (h : st.colsCache = some cs) : fetch_columns st = (cs, st) := by
  unfold fetch_columns; rw [h]

theorem fetch_columns_dfCache (st : State) :
    (fetch_columns st).2.dfCache = st.dfCache := by
  unfold fetch_columns initHeaders
  cases st.colsCache with
  | some cs => rfl
  | none =>
    cases st.grid.head? with
    | some h => by_cases he : h.isEmpty <;> simp [he]
    | none => rfl

theorem fetch_columns_colsCache (st : State) :
    (fetch_columns st).2.colsCache = some (fetch_columns st).1 := by
  unfold fetch_columns initHeaders
  cases h : st.colsCache with
  | some cs => exact h
  | none =>
    cases st.grid.head? with
    | some hd => by_cases he : hd.isEmpty <;> simp [he]
    | none => rfl

theorem fetch_columns_grid (st : State) :
    (fetch_columns st).2.grid = st.grid
    ∨ (headerMissing st
        ∧ (fetch_columns st).2.grid = setRow st.grid 0 DEFAULT_COLUMNS) := by
  unfold fetch_columns initHeaders
  cases hc : st.colsCache with
  | some cs => left; rfl
  | none =>
    cases hh : st.grid.head? with
    | some hd =>
      by_cases he : hd.isEmpty
      · right
        refine ⟨⟨hc, by rw [hh]; exact he⟩, by simp [he]⟩
      · left; simp [he]
    | none => exact Or.inr ⟨⟨hc, by rw [hh]; rfl⟩, rfl⟩

theorem fetch_columns_grid_of_ready (st : State) (h : headerReady st) :
    (fetch_columns st).2.grid = st.grid := by
  rcases fetch_columns_grid st with hg | ⟨hm, _⟩
  · exact hg
  · exact absurd hm (not_missing_of_ready st h)

theorem fetch_df_cacheHit (st : State) (d : Df) (h : st.dfCache = some d) :
    fetch_df st = (d, st) := by
  unfold fetch_df; rw [h]

theorem fetch_df_dfCache (st : State) :
    (fetch_df st).2.dfCache = some (fetch_df st).1 := by
  unfold fetch_df
  cases h : st.dfCache with
  | some d => exact h
  | none =>
    cases hg : (fetch_columns st).2.grid with
    | nil => simp [hg]
    | cons hd tl => simp [hg]

/-- After fetch_df the state is either untouched (a cache hit) or the
state fetch_columns produced with the derived DataFrame stored. -/
theorem fetch_df_state_cases (st : State) :
    (fetch_df st).2 = st
    ∨ ((fetch_df st).2.colsCache = some (fetch_columns st).1
        ∧ (fetch_df st).2.grid = (fetch_columns st).2.grid) := by
  unfold fetch_df
  cases h : st.dfCache with
  | some d => left; rfl
  | none =>
    right
    cases hg : (fetch_columns st).2.grid with
    | nil => simp [hg]; exact fetch_columns_colsCache st
    | cons hd tl => simp [hg]; exact fetch_columns_colsCache st

theorem fetch_df_grid (st : State) :
    (fetch_df st).2.grid = st.grid
    ∨ (headerMissing st
        ∧ (fetch_df st).2.grid = setRow st.grid 0 DEFAULT_COLUMNS) := by
  rcases fetch_df_state_cases st with h | ⟨_, hg⟩
  · left; rw [h]
  · rw [hg]; exact fetch_columns_grid st

theorem readPhase_grid (st : State) :
    (readPhase st).grid = st.grid
    ∨ (headerMissing st ∧ (readPhase st).grid = setRow st.grid 0 DEFAULT_COLUMNS) := by
  unfold readPhase
  rcases fetch_df_state_cases st with h | ⟨hcc, hg⟩
  · rw [h]; exact fetch_columns_grid st
  · rw [fetch_columns_cacheHit _ _ hcc, hg]
    exact fetch_columns_grid st

/-- update_process written with the two reads named, for case analysis. -/
theorem update_process_run (st : State) (ident : Identifier)
    (data : List (String × PyValue)) (now : PyDateTime) :
    update_process st ident data now =
      if ((fetch_df st).1).rows.isEmpty then ((fetch_df st).2, false)
      else
        match resolveRow (fetch_df st).1 ident with
        | Option.none => ((fetch_df st).2, false)
        | some rowIdx =>
          if (fullUpdates (fetch_columns (fetch_df st).2).1 (rowIdx + 2) data now).isEmpty
          then (readPhase st, false)
          else ({ readPhase st with
                    grid := applyCells (readPhase st).grid
                      (fullUpdates (fetch_columns (fetch_df st).2).1 (rowIdx + 2) data now) },
                true) := rfl

/-! ### Row resolution lemmas and the claims about it (C1, C4, C10) -/

theorem rowMatches_iff (header : List String) (target : String) (row : List String) :
    rowMatches header target row = true ↔
      (pyStrip (dfRowGet header row "No_orden") ≠ ""
        ∧ dfRowGet header row "No_orden" = target) := by
  unfold rowMatches
  rw [Bool.and_eq_true, bne_iff_ne, beq_iff_eq]

theorem resolveRow_some_matches (df : Df) (s : String) (k : Nat)
    (h : resolveRow df ⟨some s, Option.none⟩ = some k) :
    k < df.rows.length
    ∧ rowMatches df.header s (df.rows.getD k []) = true
    ∧ ∀ j, j < k → rowMatches df.header s (df.rows.getD j []) = false := by
  unfold resolveRow at h
  obtain ⟨hk, hp, hprev⟩ := List.findIdx?_eq_some_iff_getElem.mp h
  refine ⟨hk, ?_, ?_⟩
  · rw [List.getD_eq_getElem df.rows [] hk]; exact hp
  · intro j hj
    rw [List.getD_eq_getElem df.rows [] (lt_trans hj hk)]
    exact Bool.not_eq_true _ ▸ hprev j hj

/-- C1. Resolution by an explicit row position succeeds exactly when the
int conversion succeeds and the value lies in the 0-based data-row range;
resolution by order number succeeds exactly when some row's order-number
field is non-empty after stripping and equals the given string exactly,
and the resolved row is the first such row in table order. -/
theorem row_resolution_spec :
    ∀ (df : Df) (no : Option String) (i : Int) (s : String),
    ((resolveRow df ⟨no, some (.ofInt i)⟩).isSome ↔ 0 ≤ i ∧ i < (df.rows.length : Int))
    ∧ resolveRow df ⟨no, some .bad⟩ = Option.none
    ∧ ((resolveRow df ⟨some s, Option.none⟩).isSome ↔
        ∃ row ∈ df.rows, pyStrip (dfRowGet df.header row "No_orden") ≠ ""
          ∧ dfRowGet df.header row "No_orden" = s)
    ∧ (∀ k, resolveRow df ⟨some s, Option.none⟩ = some k →
        k < df.rows.length
        ∧ pyStrip (dfRowGet df.header (df.rows.getD k []) "No_orden") ≠ ""
        ∧ dfRowGet df.header (df.rows.getD k []) "No_orden" = s
        ∧ ∀ j, j < k →
            ¬(pyStrip (dfRowGet df.header (df.rows.getD j []) "No_orden") ≠ ""
              ∧ dfRowGet df.header (df.rows.getD j []) "No_orden" = s)) := by
  intro df no i s
  refine ⟨?_, rfl, ?_, ?_⟩
  · show (if 0 ≤ i ∧ i < (df.rows.length : Int) then some i.toNat
      else (Option.none : Option Nat)).isSome = true ↔ _
    by_cases hi : 0 ≤ i ∧ i < (df.rows.length : Int)
    · rw [if_pos hi]; simpa using hi
    · rw [if_neg hi]; simpa using hi
  · show (df.rows.findIdx? (rowMatches df.header s)).isSome ↔ _
    rw [List.findIdx?_isSome, List.any_eq_true]
    constructor
    · rintro ⟨row, hmem, hmatch⟩
      exact ⟨row, hmem, (rowMatches_iff df.header s row).mp hmatch⟩
    · rintro ⟨row, hmem, hmatch⟩
      exact ⟨row, hmem, (rowMatches_iff df.header s row).mpr hmatch⟩
  · intro k h
    obtain ⟨hk, hp, hprev⟩ := resolveRow_some_matches df s k h
    obtain ⟨h1, h2⟩ := (rowMatches_iff df.header s _).mp hp
    refine ⟨hk, h1, h2, fun j hj hcontra => ?_⟩
    have hfalse := hprev j hj
    have htrue := (rowMatches_iff df.header s _).mpr hcontra
    rw [hfalse] at htrue
    exact absurd htrue (by decide)

/-- C4, counterexample. A row whose order-number cell is the literal text
nan is returned as a match target when the given order number is exactly
that text: update_process filters only on non-emptiness after stripping,
never applying _normalize_cell on this path. -/
theorem nan_match_counterexample :
    resolveRow ⟨["No_orden"], [["nan"]]⟩ ⟨some "nan", Option.none⟩ = some 0
    ∧ dfRowGet ["No_orden"] ["nan"] "No_orden" = "nan" := ⟨rfl, rfl⟩

/-- C4, amended. During resolution by order number, rows whose
order-number field is empty or whitespace-only (empty after stripping) are
never returned as a match target; but cells holding the literal text nan
or NaN are not excluded by update_process itself — _normalize_cell, which
does map empty, blank, nan and NaN to the empty string, is applied by the
call sites when building identifiers, not on this resolution path. -/
theorem matched_row_never_blank (df : Df) (s : String) (k : Nat)
    (h : resolveRow df ⟨some s, Option.none⟩ = some k) :
    pyStrip (dfRowGet df.header (df.rows.getD k []) "No_orden") ≠ ""
    ∧ _normalize_cell (some "") = ""
    ∧ _normalize_cell (some "  ") = ""
    ∧ _normalize_cell (some "nan") = ""
    ∧ _normalize_cell (some "NaN") = "" := by
  obtain ⟨_, hp, _⟩ := resolveRow_some_matches df s k h
  exact ⟨((rowMatches_iff df.header s _).mp hp).1, rfl, rfl, rfl, rfl⟩

/-- Witness for matched_row_never_blank at a concrete table: the blank
first row is skipped and row 1 is resolved. -/
theorem matched_row_never_blank_witness :
    pyStrip (dfRowGet ["No_orden"]
        (([["  "], ["A"]] : List (List String)).getD 1 []) "No_orden") ≠ ""
    ∧ _normalize_cell (some "") = ""
    ∧ _normalize_cell (some "  ") = ""
    ∧ _normalize_cell (some "nan") = ""
    ∧ _normalize_cell (some "NaN") = "" :=
  matched_row_never_blank ⟨["No_orden"], [["  "], ["A"]]⟩ "A" 1 rfl

/-- C10, counterexample. On an uninitialized sheet a failing update still
writes: the read path reached from update_process initializes the header
row with DEFAULT_COLUMNS, so the store changes although False is
returned. -/
theorem update_failure_header_write_counterexample :
    (update_process ⟨[], Option.none, Option.none⟩ ⟨some "A", Option.none⟩
        [("Status", PyValue.str "x")] dtEx).2 = false
    ∧ (update_process ⟨[], Option.none, Option.none⟩ ⟨some "A", Option.none⟩
        [("Status", PyValue.str "x")] dtEx).1.grid = [DEFAULT_COLUMNS]
    ∧ ([DEFAULT_COLUMNS] : Grid) ≠ ([] : Grid) :=
  ⟨rfl, rfl, by simp⟩

/-- C10, amended. Whenever update_process returns False it writes no data
cell: the grid is unchanged except that, when the sheet had no usable
header row, the cached read path may have initialized row 1 with
DEFAULT_COLUMNS; the cell-update call itself is reached only on the path
that returns True. -/
theorem update_process_false_grid (st : State) (ident : Identifier)
    (data : List (String × PyValue)) (now : PyDateTime)
    (h : (update_process st ident data now).2 = false) :
    (update_process st ident data now).1.grid = st.grid
    ∨ (headerMissing st
        ∧ (update_process st ident data now).1.grid
            = setRow st.grid 0 DEFAULT_COLUMNS) := by
  rw [update_process_run] at h ⊢
  cases he : ((fetch_df st).1).rows.isEmpty with
  | true =>
    simp only [he, if_true]
    exact fetch_df_grid st
  | false =>
    simp only [he, Bool.false_eq_true, if_false] at h ⊢
    cases hr : resolveRow (fetch_df st).1 ident with
    | none =>
      simp only [hr]
      exact fetch_df_grid st
    | some rowIdx =>
      simp only [hr] at h ⊢
      cases hu : (fullUpdates (fetch_columns (fetch_df st).2).1 (rowIdx + 2) data now).isEmpty with
      | true =>
        simp only [hu, if_true]
        exact readPhase_grid st
      | false =>
        simp only [hu, Bool.false_eq_true, if_false] at h
        exact absurd h (by simp)

/-- Witness for update_process_false_grid: an order number that matches no
row fails and leaves the store as it was. -/
theorem update_process_false_grid_witness :
    (update_process ⟨[["No_orden"], ["A"]], Option.none, Option.none⟩
        ⟨some "Z", Option.none⟩ [("No_orden", PyValue.str "B")] dtEx).1.grid
      = [["No_orden"], ["A"]]
    ∨ (headerMissing ⟨[["No_orden"], ["A"]], Option.none, Option.none⟩
        ∧ (update_process ⟨[["No_orden"], ["A"]], Option.none, Option.none⟩
            ⟨some "Z", Option.none⟩ [("No_orden", PyValue.str "B")] dtEx).1.grid
          = setRow [["No_orden"], ["A"]] 0 DEFAULT_COLUMNS) :=
  update_process_false_grid ⟨[["No_orden"], ["A"]], Option.none, Option.none⟩
    ⟨some "Z", Option.none⟩ [("No_orden", PyValue.str "B")] dtEx rfl

/-! ### Supporting lemmas for the update and cache claims (C2, C6, C8) -/

theorem setRow_ne_nil (g : Grid) (i : Nat) (row : List String) :
    setRow g i row ≠ [] := by
  intro h
  have : (setRow g i row).length = 0 := by rw [h]; rfl
  unfold setRow at this
  rw [List.length_set, List.length_append, List.length_replicate] at this
  omega

theorem setCell_ne_nil (g : Grid) (r c : Nat) (v : String) :
    setCell g r c v ≠ [] := setRow_ne_nil g (r - 1) _

theorem applyCells_ne_nil (us : List CellWrite) (g : Grid) (h : us ≠ []) :
    applyCells g us ≠ [] := by
  induction us generalizing g with
  | nil => exact absurd rfl h
  | cons u us ih =>
    show applyCells (setCell g u.1 u.2.1 u.2.2) us ≠ []
    cases us with
    | nil => exact setCell_ne_nil g u.1 u.2.1 u.2.2
    | cons w ws => exact ih (setCell g u.1 u.2.1 u.2.2) (by simp)

theorem setRow_zero_tail (g : Grid) (row : List String) (h : g ≠ []) :
    (setRow g 0 row).tail = g.tail := by
  cases g with
  | nil => exact absurd rfl h
  | cons x xs => simp [setRow]

/-- A read on a state whose DataFrame cache is empty derives the rows from
the current grid. -/
theorem fetch_df_fresh (st : State) (hdf : st.dfCache = Option.none)
    (hg : st.grid ≠ []) : (fetch_df st).1.rows = st.grid.tail := by
  unfold fetch_df
  rw [hdf]
  rcases fetch_columns_grid st with h | ⟨_, h⟩
  · cases hgg : (fetch_columns st).2.grid with
    | nil => rw [h] at hgg; exact absurd hgg hg
    | cons hd tl =>
      simp only [hgg]
      rw [h] at hgg
      rw [hgg]
      rfl
  · cases hgg : (fetch_columns st).2.grid with
    | nil => rw [h] at hgg; exact absurd hgg (setRow_ne_nil st.grid 0 DEFAULT_COLUMNS)
    | cons hd tl =>
      simp only [hgg]
      have : (setRow st.grid 0 DEFAULT_COLUMNS).tail = st.grid.tail := setRow_zero_tail st.grid _ hg
      rw [h] at hgg
      rw [hgg] at this
      exact this.symm ▸ rfl

theorem readPhase_dfCache (st : State) :
    (readPhase st).dfCache = some (fetch_df st).1 := by
  unfold readPhase
  rw [fetch_columns_dfCache]
  exact fetch_df_dfCache st

theorem readPhase_colsCache (st : State) :
    (readPhase st).colsCache = some (fetch_columns (fetch_df st).2).1 :=
  fetch_columns_colsCache (fetch_df st).2

theorem fetch_df_colsCache_mono (st : State) (cs : List String)
    (h : st.colsCache = some cs) : (fetch_df st).2.colsCache = some cs := by
  rcases fetch_df_state_cases st with h2 | ⟨h2, _⟩
  · rw [h2]; exact h
  · rw [h2, fetch_columns_cacheHit st cs h]

theorem readPhase_dfCache_mono (st : State) (d : Df) (h : st.dfCache = some d) :
    (readPhase st).dfCache = some d := by
  unfold readPhase
  rw [fetch_columns_dfCache, fetch_df_cacheHit st d h]
  exact h

theorem readPhase_colsCache_mono (st : State) (cs : List String)
    (h : st.colsCache = some cs) : (readPhase st).colsCache = some cs := by
  unfold readPhase
  rw [fetch_columns_cacheHit _ cs (fetch_df_colsCache_mono st cs h)]
  exact fetch_df_colsCache_mono st cs h

/-- The state update_process returns carries the cache fields of either
the fetch_df state or the readPhase state. -/
theorem update_process_cache_cases (st : State) (ident : Identifier)
    (data : List (String × PyValue)) (now : PyDateTime) :
    ((update_process st ident data now).1.dfCache = (fetch_df st).2.dfCache
      ∧ (update_process st ident data now).1.colsCache = (fetch_df st).2.colsCache)
    ∨ ((update_process st ident data now).1.dfCache = (readPhase st).dfCache
      ∧ (update_process st ident data now).1.colsCache = (readPhase st).colsCache) := by
  rw [update_process_run]
  split
  · left; exact ⟨rfl, rfl⟩
  · split
    · left; exact ⟨rfl, rfl⟩
    · split
      · right; exact ⟨rfl, rfl⟩
      · right; exact ⟨rfl, rfl⟩

theorem update_process_dfCache_mono (st : State) (ident : Identifier)
    (data : List (String × PyValue)) (now : PyDateTime) (d : Df)
    (h : st.dfCache = some d) :
    (update_process st ident data now).1.dfCache = some d := by
  rcases update_process_cache_cases st ident data now with ⟨h1, _⟩ | ⟨h1, _⟩
  · rw [h1, fetch_df_cacheHit st d h]; exact h
  · rw [h1]; exact readPhase_dfCache_mono st d h

theorem update_process_colsCache_mono (st : State) (ident : Identifier)
    (data : List (String × PyValue)) (now : PyDateTime) (cs : List String)
    (h : st.colsCache = some cs) :
    (update_process st ident data now).1.colsCache = some cs := by
  rcases update_process_cache_cases st ident data now with ⟨_, h1⟩ | ⟨_, h1⟩
  · rw [h1]; exact fetch_df_colsCache_mono st cs h
  · rw [h1]; exact readPhase_colsCache_mono st cs h

/-- What a True return of update_process means: nonempty table, resolved
row, nonempty write list, and the final state written through readPhase. -/
theorem update_process_true_spec (st : State) (ident : Identifier)
    (data : List (String × PyValue)) (now : PyDateTime)
    (h : (update_process st ident data now).2 = true) :
    ∃ rowIdx,
      ((fetch_df st).1).rows.isEmpty = false
      ∧ resolveRow (fetch_df st).1 ident = some rowIdx
      ∧ fullUpdates (fetch_columns (fetch_df st).2).1 (rowIdx + 2) data now ≠ []
      ∧ (update_process st ident data now).1
          = { readPhase st with
                grid := applyCells (readPhase st).grid
                  (fullUpdates (fetch_columns (fetch_df st).2).1 (rowIdx + 2) data now) } := by
  rw [update_process_run] at h ⊢
  cases he : ((fetch_df st).1).rows.isEmpty with
  | true =>
    have he' : ((fetch_df st).1).rows = [] := by simpa using he
    simp [he'] at h
  | false =>
    have he' : ((fetch_df st).1).rows ≠ [] := by simpa using he
    cases hr : resolveRow (fetch_df st).1 ident with
    | none => simp [he', hr] at h
    | some rowIdx =>
      cases hu : (fullUpdates (fetch_columns (fetch_df st).2).1 (rowIdx + 2) data now).isEmpty with
      | true =>
        have hu' : fullUpdates (fetch_columns (fetch_df st).2).1 (rowIdx + 2) data now = [] := by
          simpa using hu
        simp [he', hr, hu'] at h
      | false =>
        have hu' : fullUpdates (fetch_columns (fetch_df st).2).1 (rowIdx + 2) data now ≠ [] := by
          simpa using hu
        refine ⟨rowIdx, rfl, rfl, hu', ?_⟩
        simp [hu']

/-- The converse: those three conditions force a True return with that
final state. -/
theorem update_process_true_of (st : State) (ident : Identifier)
    (data : List (String × PyValue)) (now : PyDateTime) (rowIdx : Nat)
    (he : ((fetch_df st).1).rows.isEmpty = false)
    (hr : resolveRow (fetch_df st).1 ident = some rowIdx)
    (hu : fullUpdates (fetch_columns (fetch_df st).2).1 (rowIdx + 2) data now ≠ []) :
    (update_process st ident data now).2 = true
    ∧ (update_process st ident data now).1
        = { readPhase st with
              grid := applyCells (readPhase st).grid
                (fullUpdates (fetch_columns (fetch_df st).2).1 (rowIdx + 2) data now) } := by
  have hbool : (fullUpdates (fetch_columns (fetch_df st).2).1 (rowIdx + 2) data now).isEmpty = false := by
    cases hcase : fullUpdates (fetch_columns (fetch_df st).2).1 (rowIdx + 2) data now with
    | nil => exact absurd hcase hu
    | cons a l => rfl
  rw [update_process_run, he, hr]
  simp [hbool]

/-- A successful update leaves a nonempty grid. -/
theorem update_process_true_grid_ne_nil (st : State) (ident : Identifier)
    (data : List (String × PyValue)) (now : PyDateTime)
    (h : (update_process st ident data now).2 = true) :
    (update_process st ident data now).1.grid ≠ [] := by
  obtain ⟨rowIdx, _, _, hu, hst⟩ := update_process_true_spec st ident data now h
  rw [hst]
  exact applyCells_ne_nil _ _ hu

theorem persistApply_cache (st : State) (ident : Identifier) (field_name : String)
    (value : PyValue) (extraData : Option (List (String × PyValue))) (now : PyDateTime) :
    ((persistApply st ident field_name value extraData now).2 = PersistOutcome.updated →
        (persistApply st ident field_name value extraData now).1.dfCache = Option.none
        ∧ (persistApply st ident field_name value extraData now).1.colsCache = Option.none
        ∧ (fetch_df (persistApply st ident field_name value extraData now).1).1.rows
            = ((persistApply st ident field_name value extraData now).1.grid).tail)
    ∧ ((persistApply st ident field_name value extraData now).2 ≠ PersistOutcome.updated →
        (∀ d, st.dfCache = some d →
            (persistApply st ident field_name value extraData now).1.dfCache = some d)
        ∧ (∀ cs, st.colsCache = some cs →
            (persistApply st ident field_name value extraData now).1.colsCache = some cs)) := by
  by_cases hf : ((persistData field_name value extraData).filter
      (fun p => ((fetch_columns st).1).contains p.1)).isEmpty = true
  · have hrun : persistApply st ident field_name value extraData now
        = ((fetch_columns st).2, .warnedUnknown) := by
      unfold persistApply
      rw [if_pos hf]
    rw [hrun]
    constructor
    · intro h; exact absurd h (by simp)
    · intro _
      constructor
      · intro d hd; rw [fetch_columns_dfCache]; exact hd
      · intro cs hcs; rw [fetch_columns_cacheHit st cs hcs]; exact hcs
  · by_cases hb : (update_process (fetch_columns st).2 ident
        ((persistData field_name value extraData).filter
          (fun p => ((fetch_columns st).1).contains p.1)) now).2 = true
    · have hrun : persistApply st ident field_name value extraData now
          = ({ (update_process (fetch_columns st).2 ident
                ((persistData field_name value extraData).filter
                  (fun p => ((fetch_columns st).1).contains p.1)) now).1 with
                dfCache := Option.none, colsCache := Option.none }, .updated) := by
        unfold persistApply
        rw [if_neg hf, if_pos hb]
      rw [hrun]
      constructor
      · intro _
        refine ⟨rfl, rfl, ?_⟩
        exact fetch_df_fresh _ rfl (update_process_true_grid_ne_nil _ _ _ _ hb)
      · intro h; exact absurd rfl h
    · have hrun : persistApply st ident field_name value extraData now
          = ((update_process (fetch_columns st).2 ident
              ((persistData field_name value extraData).filter
                (fun p => ((fetch_columns st).1).contains p.1)) now).1, .errorUpdate) := by
        unfold persistApply
        rw [if_neg hf, if_neg hb]
      rw [hrun]
      constructor
      · intro h; exact absurd h (by simp)
      · intro _
        constructor
        · intro d hd
          apply update_process_dfCache_mono
          rw [fetch_columns_dfCache]; exact hd
        · intro cs hcs
          apply update_process_colsCache_mono
          rw [fetch_columns_cacheHit st cs hcs]; exact hcs

/-- C6. A successful persist_field_change clears both read caches in the
same step (st.cache_data.clear()), so the next full-table read derives its
rows from the just-written grid instead of any cached pre-write DataFrame;
a persist that does not succeed — failed transform, failed derived-field
computation, every field unknown, or a False update_process — never
invalidates a populated cache slot. -/
theorem persist_cache_invalidation (st : State) (ident : Identifier)
    (field_name : String) (transformed : Except Unit PyValue)
    (extra : Option (Except Unit (List (String × PyValue)))) (now : PyDateTime) :
    ((persist_field_change st ident field_name transformed extra now).2 = PersistOutcome.updated →
        (persist_field_change st ident field_name transformed extra now).1.dfCache = Option.none
        ∧ (persist_field_change st ident field_name transformed extra now).1.colsCache = Option.none
        ∧ (fetch_df (persist_field_change st ident field_name transformed extra now).1).1.rows
            = ((persist_field_change st ident field_name transformed extra now).1.grid).tail)
    ∧ ((persist_field_change st ident field_name transformed extra now).2 ≠ PersistOutcome.updated →
        (∀ d, st.dfCache = some d →
            (persist_field_change st ident field_name transformed extra now).1.dfCache = some d)
        ∧ (∀ cs, st.colsCache = some cs →
            (persist_field_change st ident field_name transformed extra now).1.colsCache = some cs)) := by
  cases transformed with
  | error e =>
    constructor
    · intro h; exact absurd h (by simp [persist_field_change])
    · intro _
      exact ⟨fun d hd => hd, fun cs hcs => hcs⟩
  | ok value =>
    cases extra with
    | none => exact persistApply_cache st ident field_name value Option.none now
    | some ex =>
      cases ex with
      | error e =>
        constructor
        · intro h; exact absurd h (by simp [persist_field_change])
        · intro _
          exact ⟨fun d hd => hd, fun cs hcs => hcs⟩
      | ok exd => exact persistApply_cache st ident field_name value (some exd) now

/-! ### Lemmas about the pending write lists (for C2 and C8) -/

theorem buildUpdates_mem (cols : List String) (rowN : Nat)
    (data : List (String × PyValue)) (u : CellWrite)
    (h : u ∈ buildUpdates cols rowN data) :
    u.1 = rowN ∧ 1 ≤ u.2.1
    ∧ ∃ cv ∈ data, posOf cols cv.1 = some u.2.1
        ∧ u.2.2 = _prepare_sheet_value cv.2 := by
  obtain ⟨cv, hcv, heq⟩ := List.mem_filterMap.mp h
  cases hp : posOf cols cv.1 with
  | none => rw [hp] at heq; exact absurd heq (by simp)
  | some p =>
    rw [hp] at heq
    simp only [Option.some.injEq] at heq
    subst heq
    exact ⟨rfl, posOf_pos cols cv.1 p hp, cv, hcv, hp, rfl⟩

theorem fullUpdates_mem (cols : List String) (rowN : Nat)
    (data : List (String × PyValue)) (now : PyDateTime) (u : CellWrite)
    (h : u ∈ fullUpdates cols rowN data now) : u.1 = rowN ∧ 1 ≤ u.2.1 := by
  unfold fullUpdates at h
  cases hp : posOf cols "Ultima_Modificacion" with
  | none =>
    rw [hp] at h
    obtain ⟨h1, h2, _⟩ := buildUpdates_mem cols rowN data u h
    exact ⟨h1, h2⟩
  | some p =>
    rw [hp] at h
    rcases List.mem_append.mp h with h | h
    · obtain ⟨h1, h2, _⟩ := buildUpdates_mem cols rowN data u h
      exact ⟨h1, h2⟩
    · rcases List.mem_singleton.mp h with rfl
      exact ⟨rfl, posOf_pos cols _ p hp⟩

theorem fullUpdates_ne_nil_of (cols : List String) (rowN : Nat)
    (data : List (String × PyValue)) (t1 t2 : PyDateTime)
    (h : fullUpdates cols rowN data t1 ≠ []) :
    fullUpdates cols rowN data t2 ≠ [] := by
  unfold fullUpdates at h ⊢
  cases hp : posOf cols "Ultima_Modificacion" with
  | none => rw [hp] at h; exact h
  | some p => simp

/-- Away from the Ultima_Modificacion column the pending writes of the two
stamped lists agree: the stamp is the only cell whose value depends on
now. -/
theorem lastWrite_fullUpdates_avoid_ts (cols : List String) (rowN : Nat)
    (data : List (String × PyValue)) (now : PyDateTime) (r c : Nat)
    (hc : ∀ p, posOf cols "Ultima_Modificacion" = some p → c ≠ p) :
    lastWrite (fullUpdates cols rowN data now) r c
      = lastWrite (buildUpdates cols rowN data) r c := by
  unfold fullUpdates
  cases hp : posOf cols "Ultima_Modificacion" with
  | none => rfl
  | some p =>
    rw [lastWrite_append]
    have hsingle : lastWrite [(rowN, p, fmtDateTime now)] r c = Option.none := by
      show (match (Option.none : Option String) with
        | some v => some v
        | Option.none =>
          if (rowN, p, fmtDateTime now).1 = r ∧ (rowN, p, fmtDateTime now).2.1 = c
          then some (rowN, p, fmtDateTime now).2.2 else Option.none) = Option.none
      exact if_neg (fun hand => hc p hp (hand.2.symm))
    rw [hsingle]

/-! ### Claim C8: applying the same update twice -/

/-- C8. After a successful update_process, running the identical update
again (within the modelled cache window, which has no expiry) succeeds and
changes no cell outside the Ultima_Modificacion column: the second
resolution reuses the cached DataFrame, the same serialized values land on
the same cells, and only the timestamp cell can differ. -/
theorem double_update_idempotent (st : State) (ident : Identifier)
    (data : List (String × PyValue)) (t1 t2 : PyDateTime)
    (h1 : (update_process st ident data t1).2 = true) :
    (update_process (update_process st ident data t1).1 ident data t2).2 = true
    ∧ ∀ r c, 1 ≤ r → 1 ≤ c →
        (∀ p, posOf (fetch_columns (update_process st ident data t1).1).1
            "Ultima_Modificacion" = some p → c ≠ p) →
        readCell (update_process (update_process st ident data t1).1 ident data t2).1.grid r c
          = readCell (update_process st ident data t1).1.grid r c := by
  obtain ⟨rowIdx, he, hr, hu, hst⟩ := update_process_true_spec st ident data t1 h1
  have hdc : (update_process st ident data t1).1.dfCache = some (fetch_df st).1 := by
    rw [hst]; exact readPhase_dfCache st
  have hcc : (update_process st ident data t1).1.colsCache
      = some (fetch_columns (fetch_df st).2).1 := by
    rw [hst]; exact readPhase_colsCache st
  have hfd2 : fetch_df (update_process st ident data t1).1
      = ((fetch_df st).1, (update_process st ident data t1).1) :=
    fetch_df_cacheHit _ _ hdc
  have hfc2 : fetch_columns (update_process st ident data t1).1
      = ((fetch_columns (fetch_df st).2).1, (update_process st ident data t1).1) :=
    fetch_columns_cacheHit _ _ hcc
  have he2 : ((fetch_df (update_process st ident data t1).1).1).rows.isEmpty = false := by
    rw [hfd2]; exact he
  have hr2 : resolveRow (fetch_df (update_process st ident data t1).1).1 ident = some rowIdx := by
    rw [hfd2]; exact hr
  have hu2 : fullUpdates
      (fetch_columns (fetch_df (update_process st ident data t1).1).2).1
      (rowIdx + 2) data t2 ≠ [] := by
    rw [hfd2]
    show fullUpdates (fetch_columns (update_process st ident data t1).1).1 (rowIdx + 2) data t2 ≠ []
    rw [hfc2]
    exact fullUpdates_ne_nil_of _ _ _ t1 t2 hu
  obtain ⟨hb2, hst2⟩ :=
    update_process_true_of (update_process st ident data t1).1 ident data t2 rowIdx he2 hr2 hu2
  have hrp2 : readPhase (update_process st ident data t1).1
      = (update_process st ident data t1).1 := by
    unfold readPhase
    rw [hfd2]
    show (fetch_columns (update_process st ident data t1).1).2 = _
    rw [hfc2]
  refine ⟨hb2, ?_⟩
  intro r c hrge hcge hcts
  have hcts1 : ∀ p, posOf (fetch_columns (fetch_df st).2).1 "Ultima_Modificacion" = some p
      → c ≠ p := by
    intro p hp
    apply hcts p
    rw [hfc2]
    exact hp
  have hbounds2 : ∀ u ∈ fullUpdates (fetch_columns (fetch_df st).2).1 (rowIdx + 2) data t2,
      1 ≤ u.1 ∧ 1 ≤ u.2.1 := by
    intro u hmem
    obtain ⟨hu1, hu2p⟩ := fullUpdates_mem _ _ _ _ u hmem
    exact ⟨by omega, hu2p⟩
  have hbounds1 : ∀ u ∈ fullUpdates (fetch_columns (fetch_df st).2).1 (rowIdx + 2) data t1,
      1 ≤ u.1 ∧ 1 ≤ u.2.1 := by
    intro u hmem
    obtain ⟨hu1, hu2p⟩ := fullUpdates_mem _ _ _ _ u hmem
    exact ⟨by omega, hu2p⟩
  rw [hst2, hrp2]
  show readCell (applyCells (update_process st ident data t1).1.grid
      (fullUpdates (fetch_columns (fetch_df (update_process st ident data t1).1).2).1
        (rowIdx + 2) data t2)) r c
    = readCell (update_process st ident data t1).1.grid r c
  rw [hfd2]
  show readCell (applyCells (update_process st ident data t1).1.grid
      (fullUpdates (fetch_columns (update_process st ident data t1).1).1
        (rowIdx + 2) data t2)) r c
    = readCell (update_process st ident data t1).1.grid r c
  rw [hfc2]
  show readCell (applyCells (update_process st ident data t1).1.grid
      (fullUpdates (fetch_columns (fetch_df st).2).1 (rowIdx + 2) data t2)) r c
    = readCell (update_process st ident data t1).1.grid r c
  rw [readCell_applyCells _ _ r c hrge hcge hbounds2,
    lastWrite_fullUpdates_avoid_ts _ _ _ _ r c hcts1]
  cases hl : lastWrite (buildUpdates (fetch_columns (fetch_df st).2).1 (rowIdx + 2) data) r c with
  | none => rfl
  | some v =>
    rw [Option.getD_some]
    have hg1 : (update_process st ident data t1).1.grid
        = applyCells (readPhase st).grid
            (fullUpdates (fetch_columns (fetch_df st).2).1 (rowIdx + 2) data t1) := by
      rw [hst]
    rw [hg1, readCell_applyCells _ _ r c hrge hcge hbounds1,
      lastWrite_fullUpdates_avoid_ts _ _ _ _ r c hcts1, hl, Option.getD_some]

/-- Witness for double_update_idempotent: writing Status of row 0 twice
succeeds both times and cell (2,2) is unchanged by the second write. -/
theorem double_update_idempotent_witness :
    (update_process (update_process st0ex ⟨Option.none, some (.ofInt 0)⟩
        [("Status", PyValue.str "x")] dtEx).1 ⟨Option.none, some (.ofInt 0)⟩
        [("Status", PyValue.str "x")] dtEx2).2 = true
    ∧ readCell (update_process (update_process st0ex ⟨Option.none, some (.ofInt 0)⟩
        [("Status", PyValue.str "x")] dtEx).1 ⟨Option.none, some (.ofInt 0)⟩
        [("Status", PyValue.str "x")] dtEx2).1.grid 2 2
      = readCell (update_process st0ex ⟨Option.none, some (.ofInt 0)⟩
        [("Status", PyValue.str "x")] dtEx).1.grid 2 2 := by
  have h := double_update_idempotent st0ex ⟨Option.none, some (.ofInt 0)⟩
    [("Status", PyValue.str "x")] dtEx dtEx2 rfl
  refine ⟨h.1, h.2 2 2 (by omega) (by omega) ?_⟩
  intro p hp
  have hpos : posOf (fetch_columns (update_process st0ex ⟨Option.none, some (.ofInt 0)⟩
      [("Status", PyValue.str "x")] dtEx).1).1 "Ultima_Modificacion" = some 3 := rfl
  rw [hpos] at hp
  injection hp with hp
  omega

/-! ### Lemmas for claim C2: key uniqueness, write placement, read reuse -/

theorem dictInsert_keys_nodup (d : List (String × PyValue)) (kv : String × PyValue)
    (h : (d.map Prod.fst).Nodup) : ((dictInsert d kv).map Prod.fst).Nodup := by
  unfold dictInsert
  by_cases hany : d.any (fun p => p.1 == kv.1)
  · rw [if_pos hany]
    have : (d.map (fun p => if p.1 == kv.1 then (p.1, kv.2) else p)).map Prod.fst
        = d.map Prod.fst := by
      rw [List.map_map]
      apply List.map_congr_left
      intro p _
      by_cases hp : p.1 = kv.1
      · simp [hp]
      · simp [hp]
    rw [this]
    exact h
  · rw [if_neg hany]
    rw [List.map_append]
    simp only [List.map_cons, List.map_nil]
    rw [List.nodup_append]
    refine ⟨h, List.nodup_singleton kv.1, ?_⟩
    intro a ha
    simp only [List.mem_singleton]
    intro heq
    obtain ⟨p, hp, hfst⟩ := List.mem_map.mp ha
    apply hany
    rw [List.any_eq_true]
    refine ⟨p, hp, ?_⟩
    rw [hfst, heq]
    exact beq_self_eq_true kv.1

theorem dictUpdate_keys_nodup (base extras : List (String × PyValue))
    (h : (base.map Prod.fst).Nodup) : ((dictUpdate base extras).map Prod.fst).Nodup := by
  induction extras generalizing base with
  | nil => exact h
  | cons kv rest ih =>
    exact ih (dictInsert base kv) (dictInsert_keys_nodup base kv h)

theorem persistData_keys_nodup (field_name : String) (value : PyValue)
    (extraData : Option (List (String × PyValue))) :
    ((persistData field_name value extraData).map Prod.fst).Nodup := by
  unfold persistData
  apply dictUpdate_keys_nodup
  simp

theorem filter_keys_nodup (data : List (String × PyValue)) (p : String × PyValue → Bool)
    (h : (data.map Prod.fst).Nodup) : ((data.filter p).map Prod.fst).Nodup :=
  List.Nodup.sublist (List.Sublist.map Prod.fst (List.filter_sublist data)) h

theorem buildUpdates_cons (cols : List String) (rowN : Nat)
    (hd : String × PyValue) (tl : List (String × PyValue)) :
    buildUpdates cols rowN (hd :: tl) =
      match posOf cols hd.1 with
      | some p => (rowN, p, _prepare_sheet_value hd.2) :: buildUpdates cols rowN tl
      | Option.none => buildUpdates cols rowN tl := by
  cases hp : posOf cols hd.1 with
  | none => simp [buildUpdates, List.filterMap_cons, hp]
  | some p => simp [buildUpdates, List.filterMap_cons, hp]

theorem lastWrite_cons (u : CellWrite) (us : List CellWrite) (r c : Nat) :
    lastWrite (u :: us) r c =
      match lastWrite us r c with
      | some v => some v
      | Option.none => if u.1 = r ∧ u.2.1 = c then some u.2.2 else Option.none := rfl

theorem lastWrite_buildUpdates_none (cols : List String) (rowN : Nat)
    (data : List (String × PyValue)) (c : Nat)
    (h : ∀ cv ∈ data, posOf cols cv.1 ≠ some c) :
    ∀ r, lastWrite (buildUpdates cols rowN data) r c = Option.none := by
  induction data with
  | nil => intro r; rfl
  | cons hd tl ih =>
    intro r
    have htl := ih (fun cv hcv => h cv (List.mem_cons_of_mem hd hcv)) r
    rw [buildUpdates_cons]
    cases hp : posOf cols hd.1 with
    | none => exact htl
    | some q =>
      rw [lastWrite_cons, htl]
      refine if_neg (fun hand => ?_)
      have hqc : q = c := hand.2
      exact h hd (List.mem_cons_self hd tl) (by rw [hp, hqc])

theorem lastWrite_buildUpdates_of_mem (cols : List String) (rowN : Nat)
    (data : List (String × PyValue)) (nv : String × PyValue) (p : Nat)
    (hnodup : (data.map Prod.fst).Nodup) (hmem : nv ∈ data)
    (hp : posOf cols nv.1 = some p) :
    lastWrite (buildUpdates cols rowN data) rowN p
      = some (_prepare_sheet_value nv.2) := by
  induction data with
  | nil => exact absurd hmem (List.not_mem_nil nv)
  | cons hd tl ih =>
    rw [List.map_cons, List.nodup_cons] at hnodup
    rw [buildUpdates_cons]
    rcases List.mem_cons.mp hmem with heq | htl
    · subst heq
      have hnone : lastWrite (buildUpdates cols rowN tl) rowN p = Option.none := by
        apply lastWrite_buildUpdates_none
        intro cv hcv hcp
        have : cv.1 = nv.1 := posOf_inj_name cols cv.1 nv.1 p hcp hp
        exact hnodup.1 (this ▸ List.mem_map_of_mem Prod.fst hcv)
      rw [hp, lastWrite_cons, hnone]
      exact if_pos ⟨rfl, rfl⟩
    · have hrec := ih hnodup.2 htl
      cases hq : posOf cols hd.1 with
      | none => exact hrec
      | some q => rw [lastWrite_cons, hrec]

theorem lastWrite_fullUpdates_of_mem (cols : List String) (rowN : Nat)
    (data : List (String × PyValue)) (now : PyDateTime) (nv : String × PyValue) (p : Nat)
    (hnodup : (data.map Prod.fst).Nodup) (hmem : nv ∈ data)
    (hp : posOf cols nv.1 = some p) (hts : nv.1 ≠ "Ultima_Modificacion") :
    lastWrite (fullUpdates cols rowN data now) rowN p
      = some (_prepare_sheet_value nv.2) := by
  have havoid : ∀ q, posOf cols "Ultima_Modificacion" = some q → p ≠ q := by
    intro q hq hpq
    exact hts (posOf_inj_name cols nv.1 "Ultima_Modificacion" p hp (hpq ▸ hq))
  rw [lastWrite_fullUpdates_avoid_ts cols rowN data now rowN p havoid]
  exact lastWrite_buildUpdates_of_mem cols rowN data nv p hnodup hmem hp

theorem buildUpdates_ne_nil_of_known (cols : List String) (rowN : Nat)
    (data : List (String × PyValue)) (nv : String × PyValue)
    (hmem : nv ∈ data) (hknown : nv.1 ∈ cols) :
    buildUpdates cols rowN data ≠ [] := by
  intro hnil
  obtain ⟨p, hp⟩ := Option.isSome_iff_exists.mp ((posOf_isSome_iff cols nv.1).mpr hknown)
  have : (rowN, p, _prepare_sheet_value nv.2) ∈ buildUpdates cols rowN data :=
    List.mem_filterMap.mpr ⟨nv, hmem, by rw [hp]⟩
  rw [hnil] at this
  exact List.not_mem_nil _ this

theorem fullUpdates_ne_nil_of_build (cols : List String) (rowN : Nat)
    (data : List (String × PyValue)) (now : PyDateTime)
    (h : buildUpdates cols rowN data ≠ []) :
    fullUpdates cols rowN data now ≠ [] := by
  unfold fullUpdates
  cases posOf cols "Ultima_Modificacion" with
  | none => exact h
  | some p => simp

theorem resolveRow_rowIdx_int (df : Df) (no : Option String) (i : Int) :
    resolveRow df ⟨no, some (.ofInt i)⟩
      = if 0 ≤ i ∧ i < (df.rows.length : Int) then some i.toNat else Option.none := rfl

theorem resolveRow_byOrden (df : Df) (no : Option String) :
    resolveRow df ⟨no, Option.none⟩
      = df.rows.findIdx? (rowMatches df.header (pyStrOfOpt no)) := rfl

theorem resolveRow_some_rows_nonempty (df : Df) (ident : Identifier) (k : Nat)
    (h : resolveRow df ident = some k) : df.rows.isEmpty = false := by
  obtain ⟨no, rid⟩ := ident
  cases rid with
  | none =>
    rw [resolveRow_byOrden] at h
    obtain ⟨hk, _, _⟩ := List.findIdx?_eq_some_iff_getElem.mp h
    cases hrows : df.rows with
    | nil => rw [hrows] at hk; simp at hk
    | cons a l => rfl
  | some iv =>
    cases iv with
    | bad => exact absurd h (by simp [resolveRow])
    | ofInt i =>
      rw [resolveRow_rowIdx_int] at h
      by_cases hcond : 0 ≤ i ∧ i < (df.rows.length : Int)
      · cases hrows : df.rows with
        | nil =>
          exfalso
          rw [hrows] at hcond
          have hbad : (0:Int) ≤ i ∧ i < 0 := by simpa using hcond
          omega
        | cons a l => rfl
      · rw [if_neg hcond] at h; exact absurd h (by simp)

theorem fetch_df_fst_after_columns (st : State) :
    (fetch_df (fetch_columns st).2).1 = (fetch_df st).1 := by
  cases hdc : st.dfCache with
  | some d =>
    have h1 : (fetch_columns st).2.dfCache = some d := by
      rw [fetch_columns_dfCache]; exact hdc
    rw [fetch_df_cacheHit _ _ h1, fetch_df_cacheHit st d hdc]
  | none =>
    have h1 : (fetch_columns st).2.dfCache = Option.none := by
      rw [fetch_columns_dfCache]; exact hdc
    have h2 : fetch_columns (fetch_columns st).2 = ((fetch_columns st).1, (fetch_columns st).2) :=
      fetch_columns_cacheHit _ _ (fetch_columns_colsCache st)
    unfold fetch_df
    rw [hdc, h1, h2]

theorem fetch_columns_fst_after_df (stA : State) (cs : List String)
    (h : stA.colsCache = some cs) : (fetch_columns (fetch_df stA).2).1 = cs := by
  rw [fetch_columns_cacheHit _ _ (fetch_df_colsCache_mono stA cs h)]

theorem readPhase_eq_of_cols (stA : State) (cs : List String)
    (h : stA.colsCache = some cs) : readPhase stA = (fetch_df stA).2 := by
  unfold readPhase
  rw [fetch_columns_cacheHit _ _ (fetch_df_colsCache_mono stA cs h)]

theorem fetch_df_grid_of_cols (stA : State) (cs : List String)
    (h : stA.colsCache = some cs) : (fetch_df stA).2.grid = stA.grid := by
  rcases fetch_df_state_cases stA with h2 | ⟨_, h2⟩
  · rw [h2]
  · rw [h2, fetch_columns_cacheHit stA cs h]

theorem persist_ok_map (st : State) (ident : Identifier) (field_name : String)
    (value : PyValue) (extraData : Option (List (String × PyValue))) (now : PyDateTime) :
    persist_field_change st ident field_name (.ok value) (extraData.map Except.ok) now
      = persistApply st ident field_name value extraData now := by
  cases extraData with
  | none => rfl
  | some ex => rfl

theorem isEmpty_false_of_ne_nil {α : Type} (l : List α) (h : l ≠ []) :
    l.isEmpty = false := by
  cases l with
  | nil => exact absurd rfl h
  | cons a t => rfl

/-- C2. Under a usable header: when every requested field (the edited
field plus the derived fields) lacks a matching column, the whole update
is rejected on the warning path with the grid untouched; when at least one
requested field matches a column and the row resolves, the update succeeds,
every surviving field's serialized value lands in its column of the
resolved row (the Ultima_Modificacion column aside, which the stamp
overwrites), and no other row changes — the unknown fields were dropped
individually. -/
theorem unknown_field_filtering
    (st : State) (ident : Identifier) (field_name : String) (value : PyValue)
    (extraData : Option (List (String × PyValue))) (now : PyDateTime)
    (hHeader : headerReady st) :
    ((∀ nv ∈ persistData field_name value extraData, nv.1 ∉ (fetch_columns st).1) →
        (persist_field_change st ident field_name (.ok value)
            (extraData.map Except.ok) now).2 = PersistOutcome.warnedUnknown
        ∧ (persist_field_change st ident field_name (.ok value)
            (extraData.map Except.ok) now).1.grid = st.grid)
    ∧ (∀ rowIdx, resolveRow (fetch_df st).1 ident = some rowIdx →
        (∃ nv ∈ persistData field_name value extraData, nv.1 ∈ (fetch_columns st).1) →
        (persist_field_change st ident field_name (.ok value)
            (extraData.map Except.ok) now).2 = PersistOutcome.updated
        ∧ (∀ nv ∈ persistData field_name value extraData,
            nv.1 ≠ "Ultima_Modificacion" →
            ∀ p, posOf (fetch_columns st).1 nv.1 = some p →
            readCell (persist_field_change st ident field_name (.ok value)
                (extraData.map Except.ok) now).1.grid (rowIdx + 2) p
              = _prepare_sheet_value nv.2)
        ∧ (∀ r c, 1 ≤ r → 1 ≤ c → r ≠ rowIdx + 2 →
            readCell (persist_field_change st ident field_name (.ok value)
                (extraData.map Except.ok) now).1.grid r c
              = readCell st.grid r c)) := by
  have hpm := persist_ok_map st ident field_name value extraData now
  have hcolsA : ((fetch_columns st).2).colsCache = some (fetch_columns st).1 :=
    fetch_columns_colsCache st
  constructor
  · intro hAll
    have hfilter : (persistData field_name value extraData).filter
        (fun p => ((fetch_columns st).1).contains p.1) = [] := by
      rw [List.filter_eq_nil_iff]
      intro nv hnv hc
      exact hAll nv hnv (List.elem_iff.mp hc)
    have hempty : ((persistData field_name value extraData).filter
        (fun p => ((fetch_columns st).1).contains p.1)).isEmpty = true := by
      rw [hfilter]; rfl
    have hrun : persistApply st ident field_name value extraData now
        = ((fetch_columns st).2, .warnedUnknown) := by
      unfold persistApply
      rw [if_pos hempty]
    rw [hpm, hrun]
    exact ⟨rfl, fetch_columns_grid_of_ready st hHeader⟩
  · intro rowIdx hres hsome
    obtain ⟨nv₀, hmem₀, hknown₀⟩ := hsome
    have hmemf₀ : nv₀ ∈ (persistData field_name value extraData).filter
        (fun p => ((fetch_columns st).1).contains p.1) :=
      List.mem_filter.mpr ⟨hmem₀, List.elem_iff.mpr hknown₀⟩
    have hempty_false : ((persistData field_name value extraData).filter
        (fun p => ((fetch_columns st).1).contains p.1)).isEmpty = false :=
      isEmpty_false_of_ne_nil _ (List.ne_nil_of_mem hmemf₀)
    have heA : ((fetch_df (fetch_columns st).2).1).rows.isEmpty = false := by
      rw [fetch_df_fst_after_columns]
      exact resolveRow_some_rows_nonempty (fetch_df st).1 ident rowIdx hres
    have hrA : resolveRow (fetch_df (fetch_columns st).2).1 ident = some rowIdx := by
      rw [fetch_df_fst_after_columns]; exact hres
    have hcolsEq : (fetch_columns (fetch_df (fetch_columns st).2).2).1
        = (fetch_columns st).1 := fetch_columns_fst_after_df _ _ hcolsA
    have hbuild_ne : buildUpdates (fetch_columns st).1 (rowIdx + 2)
        ((persistData field_name value extraData).filter
          (fun p => ((fetch_columns st).1).contains p.1)) ≠ [] :=
      buildUpdates_ne_nil_of_known _ _ _ nv₀ hmemf₀ hknown₀
    have huA : fullUpdates (fetch_columns (fetch_df (fetch_columns st).2).2).1 (rowIdx + 2)
        ((persistData field_name value extraData).filter
          (fun p => ((fetch_columns st).1).contains p.1)) now ≠ [] := by
      rw [hcolsEq]
      exact fullUpdates_ne_nil_of_build _ _ _ now hbuild_ne
    obtain ⟨hbA, hstA⟩ := update_process_true_of (fetch_columns st).2 ident
      ((persistData field_name value extraData).filter
        (fun p => ((fetch_columns st).1).contains p.1)) now rowIdx heA hrA huA
    have hrun : persistApply st ident field_name value extraData now
        = ({ (update_process (fetch_columns st).2 ident
              ((persistData field_name value extraData).filter
                (fun p => ((fetch_columns st).1).contains p.1)) now).1 with
            dfCache := Option.none, colsCache := Option.none }, .updated) := by
      unfold persistApply
      rw [if_neg (by rw [hempty_false]; simp), if_pos hbA]
    have hgridRP : (readPhase (fetch_columns st).2).grid = st.grid := by
      rw [readPhase_eq_of_cols _ _ hcolsA, fetch_df_grid_of_cols _ _ hcolsA]
      exact fetch_columns_grid_of_ready st hHeader
    have hfinal : (update_process (fetch_columns st).2 ident
        ((persistData field_name value extraData).filter
          (fun p => ((fetch_columns st).1).contains p.1)) now).1.grid
        = applyCells st.grid (fullUpdates (fetch_columns st).1 (rowIdx + 2)
            ((persistData field_name value extraData).filter
              (fun p => ((fetch_columns st).1).contains p.1)) now) := by
      rw [hstA]
      show applyCells (readPhase (fetch_columns st).2).grid
          (fullUpdates (fetch_columns (fetch_df (fetch_columns st).2).2).1 (rowIdx + 2)
            ((persistData field_name value extraData).filter
              (fun p => ((fetch_columns st).1).contains p.1)) now)
        = _
      rw [hgridRP, hcolsEq]
    have hgridP : (persist_field_change st ident field_name (.ok value)
        (extraData.map Except.ok) now).1.grid
        = applyCells st.grid (fullUpdates (fetch_columns st).1 (rowIdx + 2)
            ((persistData field_name value extraData).filter
              (fun p => ((fetch_columns st).1).contains p.1)) now) := by
      rw [hpm, hrun]
      exact hfinal
    have hnodup : (((persistData field_name value extraData).filter
        (fun p => ((fetch_columns st).1).contains p.1)).map Prod.fst).Nodup :=
      filter_keys_nodup _ _ (persistData_keys_nodup field_name value extraData)
    have hbounds : ∀ u ∈ fullUpdates (fetch_columns st).1 (rowIdx + 2)
        ((persistData field_name value extraData).filter
          (fun p => ((fetch_columns st).1).contains p.1)) now,
        1 ≤ u.1 ∧ 1 ≤ u.2.1 := by
      intro u hu
      obtain ⟨h1, h2⟩ := fullUpdates_mem _ _ _ _ u hu
      exact ⟨by omega, h2⟩
    refine ⟨by rw [hpm, hrun], ?_, ?_⟩
    · intro nv hmem hts p hp
      have hknown : nv.1 ∈ (fetch_columns st).1 :=
        (posOf_isSome_iff _ _).mp (by rw [hp]; rfl)
      have hmemf : nv ∈ (persistData field_name value extraData).filter
          (fun q => ((fetch_columns st).1).contains q.1) :=
        List.mem_filter.mpr ⟨hmem, List.elem_iff.mpr hknown⟩
      rw [hgridP, readCell_applyCells _ _ _ _ (by omega) (posOf_pos _ _ p hp) hbounds,
        lastWrite_fullUpdates_of_mem _ _ _ _ nv p hnodup hmemf hp hts, Option.getD_some]
    · intro r c hr hc hne
      have hnot : lastWrite (fullUpdates (fetch_columns st).1 (rowIdx + 2)
          ((persistData field_name value extraData).filter
            (fun p => ((fetch_columns st).1).contains p.1)) now) r c = Option.none := by
        apply lastWrite_none_of_row_ne
        intro u hu
        rw [(fullUpdates_mem _ _ _ _ u hu).1]
        omega
      rw [hgridP, readCell_applyCells _ _ _ _ hr hc hbounds, hnot, Option.getD_none]

/-- Witness for unknown_field_filtering: on a concrete sheet the bogus
field is rejected without a write, and a Status edit with one unknown
extra lands only the Status value. -/
theorem unknown_field_filtering_witness :
    ((persist_field_change st0ex ⟨Option.none, some (.ofInt 0)⟩ "Bogus"
        (.ok (PyValue.str "v")) Option.none dtEx).2 = PersistOutcome.warnedUnknown
      ∧ (persist_field_change st0ex ⟨Option.none, some (.ofInt 0)⟩ "Bogus"
          (.ok (PyValue.str "v")) Option.none dtEx).1.grid = st0ex.grid)
    ∧ ((persist_field_change st0ex ⟨Option.none, some (.ofInt 0)⟩ "Status"
        (.ok (PyValue.str "x")) (some (.ok [("Zzz", PyValue.str "9")])) dtEx).2
          = PersistOutcome.updated
      ∧ readCell (persist_field_change st0ex ⟨Option.none, some (.ofInt 0)⟩ "Status"
          (.ok (PyValue.str "x")) (some (.ok [("Zzz", PyValue.str "9")])) dtEx).1.grid 2 2
          = "x"
      ∧ readCell (persist_field_change st0ex ⟨Option.none, some (.ofInt 0)⟩ "Status"
          (.ok (PyValue.str "x")) (some (.ok [("Zzz", PyValue.str "9")])) dtEx).1.grid 3 1
          = readCell st0ex.grid 3 1) := by
  have h1 := unknown_field_filtering st0ex ⟨Option.none, some (.ofInt 0)⟩ "Bogus"
    (PyValue.str "v") Option.none dtEx (Or.inr rfl)
  have h2 := unknown_field_filtering st0ex ⟨Option.none, some (.ofInt 0)⟩ "Status"
    (PyValue.str "x") (some [("Zzz", PyValue.str "9")]) dtEx (Or.inr rfl)
  have ha := h1.1 (by decide)
  have hb := h2.2 0 rfl ⟨("Status", PyValue.str "x"), by decide, by decide⟩
  refine ⟨⟨ha.1, ha.2⟩, hb.1, ?_, ?_⟩
  · have := hb.2.1 ("Status", PyValue.str "x") (by decide) (by decide) 2 rfl
    exact this
  · exact hb.2.2 3 1 (by omega) (by omega) (by omega)

/-! ### Uniqueness of the generated identifiers (C7) -/

theorem natDigitsAux_eq (fuel : Nat) : ∀ n, n ≤ fuel → natDigitsAux fuel n = Nat.digits 10 n := by
  induction fuel with
  | zero =>
    intro n hn
    have : n = 0 := by omega
    subst this
    simp [natDigitsAux]
  | succ fuel ih =>
    intro n hn
    cases n with
    | zero => simp [natDigitsAux]
    | succ m =>
      have hdiv : (m + 1) / 10 < m + 1 := Nat.div_lt_self (Nat.succ_pos m) (by norm_num)
      show ((m + 1) % 10) :: natDigitsAux fuel ((m + 1) / 10) = Nat.digits 10 (m + 1)
      rw [ih ((m + 1) / 10) (by omega),
        Nat.digits_def' (by norm_num : 1 < 10) (Nat.succ_pos m)]

theorem digitChar_inj_lt : ∀ x < 10, ∀ y < 10, Nat.digitChar x = Nat.digitChar y → x = y := by
  decide

theorem map_digitChar_inj : ∀ (l₁ l₂ : List Nat), (∀ d ∈ l₁, d < 10) → (∀ d ∈ l₂, d < 10) →
    l₁.map Nat.digitChar = l₂.map Nat.digitChar → l₁ = l₂ := by
  intro l₁
  induction l₁ with
  | nil =>
    intro l₂ _ _ h
    cases l₂ with
    | nil => rfl
    | cons b u => simp at h
  | cons a t ih =>
    intro l₂ h1 h2 h
    cases l₂ with
    | nil => simp at h
    | cons b u =>
      simp only [List.map_cons, List.cons.injEq] at h
      have hab : a = b := digitChar_inj_lt a (h1 a (List.mem_cons_self a t)) b
        (h2 b (List.mem_cons_self b u)) h.1
      rw [hab, ih u (fun d hd => h1 d (List.mem_cons_of_mem a hd))
        (fun d hd => h2 d (List.mem_cons_of_mem b hd)) h.2]

theorem natRepr_inj_pos (a b : Nat) (ha : a ≠ 0) (hb : b ≠ 0)
    (h : natRepr a = natRepr b) : a = b := by
  unfold natRepr at h
  rw [if_neg ha, if_neg hb, natDigitsAux_eq (a + 1) a (by omega),
    natDigitsAux_eq (b + 1) b (by omega)] at h
  have hdata : ((Nat.digits 10 a).reverse.map Nat.digitChar)
      = ((Nat.digits 10 b).reverse.map Nat.digitChar) := congrArg String.data h
  have hrev : (Nat.digits 10 a).reverse = (Nat.digits 10 b).reverse :=
    map_digitChar_inj _ _
      (fun d hd => Nat.digits_lt_base (by norm_num) (List.mem_reverse.mp hd))
      (fun d hd => Nat.digits_lt_base (by norm_num) (List.mem_reverse.mp hd)) hdata
  have hdig := List.reverse_inj.mp hrev
  calc a = Nat.ofDigits 10 (Nat.digits 10 a) := (Nat.ofDigits_digits 10 a).symm
    _ = Nat.ofDigits 10 (Nat.digits 10 b) := by rw [hdig]
    _ = b := Nat.ofDigits_digits 10 b

theorem suffix_cand_inj (base : String) (i j : Nat) (hi : i ≠ 0) (hj : j ≠ 0)
    (h : base ++ "_" ++ natRepr i = base ++ "_" ++ natRepr j) : i = j := by
  apply natRepr_inj_pos i j hi hj
  apply String.ext
  have hd : (base ++ "_").data ++ (natRepr i).data
      = (base ++ "_").data ++ (natRepr j).data := by
    rw [← String.data_append, ← String.data_append, h]
  exact List.append_cancel_left hd

theorem freshFrom_not_mem (seen : List String) (base : String) :
    ∀ fuel s, (∃ j < fuel, base ++ "_" ++ natRepr (s + j) ∉ seen) →
      freshFrom seen base fuel s ∉ seen := by
  intro fuel
  induction fuel with
  | zero =>
    rintro s ⟨j, hj, _⟩
    omega
  | succ fuel ih =>
    rintro s ⟨j, hj, hfree⟩
    unfold freshFrom
    by_cases hmem : base ++ "_" ++ natRepr s ∈ seen
    · rw [if_pos hmem]
      have hj0 : j ≠ 0 := by
        intro h0
        subst h0
        have hnot : base ++ "_" ++ natRepr s ∉ seen := by simpa using hfree
        exact hnot hmem
      apply ih (s + 1)
      refine ⟨j - 1, by omega, ?_⟩
      have harith : s + 1 + (j - 1) = s + j := by omega
      rw [harith]
      exact hfree
    · rw [if_neg hmem]
      exact hmem

theorem fresh_exists (seen : List String) (base : String) :
    ∃ j < seen.length + 1, base ++ "_" ++ natRepr (2 + j) ∉ seen := by
  by_contra hcon
  push_neg at hcon
  have hmapsto : ∀ a ∈ Finset.range (seen.length + 1),
      (base ++ "_" ++ natRepr (2 + a)) ∈ seen.toFinset :=
    fun a ha => List.mem_toFinset.mpr (hcon a (Finset.mem_range.mp ha))
  have hinj : Set.InjOn (fun a => base ++ "_" ++ natRepr (2 + a))
      (Finset.range (seen.length + 1)) := by
    intro a _ b _ hab
    have := suffix_cand_inj base (2 + a) (2 + b) (by omega) (by omega) hab
    omega
  have hcard := Finset.card_le_card_of_injOn _ hmapsto hinj
  rw [Finset.card_range] at hcard
  have := List.toFinset_card_le seen
  omega

theorem freshValue_not_mem (seen : List String) (base : String) :
    freshValue seen base ∉ seen := by
  unfold freshValue
  by_cases hb : base ∈ seen
  · rw [if_pos hb]
    obtain ⟨j, hj, hfree⟩ := fresh_exists seen base
    exact freshFrom_not_mem seen base (seen.length + 1) 2 ⟨j, hj, hfree⟩
  · rw [if_neg hb]
    exact hb

theorem buildOptionsGo_cons (pfx label : String) (tl seen : List String) :
    buildOptionsGo pfx (label :: tl) seen =
      ⟨freshValue seen (_slugify_label label), label,
        _generate_color (pfx ++ "_" ++ freshValue seen (_slugify_label label))⟩
      :: buildOptionsGo pfx tl (freshValue seen (_slugify_label label) :: seen) := rfl

theorem buildOptionsGo_labels (pfx : String) :
    ∀ (rest : List String) (seen : List String),
      (buildOptionsGo pfx rest seen).map (fun o => o.label) = rest := by
  intro rest
  induction rest with
  | nil => intro seen; rfl
  | cons label tl ih =>
    intro seen
    rw [buildOptionsGo_cons, List.map_cons, ih]

theorem buildOptionsGo_values (pfx : String) :
    ∀ (rest : List String) (seen : List String),
      ((buildOptionsGo pfx rest seen).map (fun o => o.value)).Nodup
      ∧ ∀ v ∈ (buildOptionsGo pfx rest seen).map (fun o => o.value), v ∉ seen := by
  intro rest
  induction rest with
  | nil => intro seen; exact ⟨List.nodup_nil, fun v hv => absurd hv (List.not_mem_nil v)⟩
  | cons label tl ih =>
    intro seen
    obtain ⟨htlnodup, htlseen⟩ := ih (freshValue seen (_slugify_label label) :: seen)
    rw [buildOptionsGo_cons, List.map_cons]
    constructor
    · rw [List.nodup_cons]
      refine ⟨?_, htlnodup⟩
      intro hmem
      exact htlseen _ hmem (List.mem_cons_self _ _)
    · intro v hv
      rcases List.mem_cons.mp hv with heq | htl2
      · rw [heq]
        exact freshValue_not_mem seen (_slugify_label label)
      · intro hvseen
        exact htlseen v htl2 (List.mem_cons_of_mem _ hvseen)

theorem buildOptionsGo_colors (pfx : String) :
    ∀ (rest : List String) (seen : List String),
      (buildOptionsGo pfx rest seen).map (fun o => o.color)
        = (buildOptionsGo pfx rest seen).map (fun o => _generate_color (pfx ++ "_" ++ o.value)) := by
  intro rest
  induction rest with
  | nil => intro seen; rfl
  | cons label tl ih =>
    intro seen
    rw [buildOptionsGo_cons, List.map_cons, List.map_cons, ih]

/-- C7. _build_options yields exactly one catalog entry per label, in
input order, and the generated identifier values are pairwise distinct
within the catalog: the collision loop appends numeric suffixes until an
unused value is found, even when several labels slugify to the same base
identifier. -/
theorem build_options_catalog :
    ∀ (labels : List String) (pfx : String),
      (_build_options labels pfx).length = labels.length
      ∧ (_build_options labels pfx).map (fun o => o.label) = labels
      ∧ ((_build_options labels pfx).map (fun o => o.value)).Nodup := by
  intro labels pfx
  have hlab : (_build_options labels pfx).map (fun o => o.label) = labels :=
    buildOptionsGo_labels pfx labels []
  refine ⟨?_, hlab, (buildOptionsGo_values pfx labels []).1⟩
  calc (_build_options labels pfx).length
      = ((_build_options labels pfx).map (fun o => o.label)).length :=
        (List.length_map _ _).symm
    _ = labels.length := by rw [hlab]

/-- C9. The derived color is deterministic: any two catalog builds over
the same label list and namespace prefix produce identical entries (the
embedded builder, like the Python one whose sha1 and colorsys are
deterministic, is a pure function of its inputs), and every entry's color
is exactly _generate_color of the namespaced identifier — the sha1-driven
hue construction at fixed saturation and lightness. -/
theorem build_options_color_deterministic :
    ∀ (labels : List String) (pfx : String),
      _build_options labels pfx = _build_options labels pfx
      ∧ (_build_options labels pfx).map (fun o => o.color)
          = (_build_options labels pfx).map (fun o => _generate_color (pfx ++ "_" ++ o.value)) :=
  fun labels pfx => ⟨rfl, buildOptionsGo_colors pfx labels []⟩

end LabPG
